import Mathlib

/-!
Verification of the engine-communication core of the chess-insight-bar
repository: the UCI protocol line parser (`parseInfoLine`), the evaluation
canonicalization (`mapEvalToCentipawns`) and the queued analysis session
(`useStockfish` / `analyze`), translated from `src/engine/useStockfish.ts`.

Strings are handled through their character lists, with JavaScript's string
primitives (`split(/\s+/)`, `split(" ")`, `indexOf`, `includes`,
`startsWith`, `join(" ")`, `parseInt`) modelled as executable Lean
functions of the same behaviour.  JavaScript numbers produced by this code
are integers or `NaN`, modelled by `JSNumber`.

The asynchronous session (a Web Worker driven by `postMessage` /
`message` events, with analyze requests serialized through a promise
chain) is modelled as an explicit state machine: the environment drives it
with external events (an `analyze` call, completion of the engine-script
fetch, an inbound line from the worker) and each event runs the
session's handlers and all unblocked promise continuations to quiescence,
exactly as the single-threaded JavaScript event loop does.  The run
produces a transcript of commands transmitted to the worker, lines
received from it and promise resolutions, about which the ordering claims
are stated.
-/

namespace ChessInsightBar

/-- A JavaScript number as produced by this code: an integer or `NaN`
(which `parseInt` returns on non-numeric input). -/
inductive JSNumber where
  | int (n : Int)
  | nan
deriving DecidableEq, Repr

/-- Runtime shape of `EngineEval` (`{ type: "cp" | "mate"; value: number }`).
The source casts the token after `score` with `as "cp" | "mate"` without a
runtime check, so at runtime `type` is an arbitrary string. -/
structure EngineEval where
  type : String
  value : JSNumber
deriving DecidableEq, Repr

/-- `EngineResult`: evaluation, best move in UCI coordinate notation, and
optional principal variation. -/
structure EngineResult where
  eval : EngineEval
  bestMove : String
  pv : Option String
deriving DecidableEq, Repr

/-! ## JavaScript string and number primitives -/

/-- A whitespace character as matched by the regex `\s` (ASCII part) and
skipped by `parseInt`. -/
def isWsChar (c : Char) : Bool :=
  c = ' ' || c = '\t' || c = '\n' || c = '\r' ||
    c = Char.ofNat 11 || c = Char.ofNat 12

/-- Worker for `splitWs`: `cur` holds the current token's characters in
reverse; `skip` is true while inside a whitespace run whose token has
already been emitted, so further whitespace is absorbed. -/
def splitWsGo (skip : Bool) (l : List Char) (cur : List Char) :
    List String :=
  match l with
  | [] => [String.mk cur.reverse]
  | c :: cs =>
    if isWsChar c then
      if skip then splitWsGo true cs cur
      else String.mk cur.reverse :: splitWsGo true cs []
    else splitWsGo false cs (c :: cur)

/-- JavaScript `line.split(/\s+/)`: split on maximal whitespace runs;
leading (trailing) whitespace yields an empty first (last) element. -/
def splitWs (s : String) : List String := splitWsGo false s.toList []

/-- Worker for `splitOnSpace`. -/
def splitOnSpaceGo (l : List Char) (cur : List Char) : List String :=
  match l with
  | [] => [String.mk cur.reverse]
  | c :: cs =>
    if c = ' ' then String.mk cur.reverse :: splitOnSpaceGo cs []
    else splitOnSpaceGo cs (c :: cur)

/-- JavaScript `text.split(" ")`: every single space is a boundary, so two
adjacent spaces yield an empty element. -/
def splitOnSpace (s : String) : List String := splitOnSpaceGo s.toList []

/-- JavaScript `s.startsWith(pre)`. -/
def strStartsWith (s pre : String) : Bool := pre.toList.isPrefixOf s.toList

/-- Worker for `containsSub` over character lists. -/
def containsChars (needle : List Char) : List Char → Bool
  | [] => needle.isEmpty
  | c :: cs => needle.isPrefixOf (c :: cs) || containsChars needle cs

/-- JavaScript `s.includes(sub)`. -/
def containsSub (s sub : String) : Bool := containsChars sub.toList s.toList

/-- JavaScript `array.indexOf(tok)` on a string array: index of the first
occurrence, `none` for `-1`. -/
def findTok (tok : String) : List String → Option Nat
  | [] => none
  | t :: ts => if t = tok then some 0 else (findTok tok ts).map (· + 1)

/-- JavaScript `array.join(" ")`. -/
def joinSpace : List String → String
  | [] => ""
  | [t] => t
  | t :: ts => t ++ " " ++ joinSpace ts

/-- Value of a digit string (most significant first). -/
def digitsVal (ds : List Char) : Nat :=
  ds.foldl (fun a c => a * 10 + (c.toNat - 48)) 0

/-- JavaScript `parseInt(s, 10)`: skip leading whitespace, read an optional
sign and then the longest prefix of decimal digits; `NaN` when there is no
digit. -/
def parseIntJS (s : String) : JSNumber :=
  match s.toList.dropWhile isWsChar with
  | '-' :: rest =>
    let ds := rest.takeWhile Char.isDigit
    if ds.isEmpty then .nan else .int (-(digitsVal ds : Int))
  | '+' :: rest =>
    let ds := rest.takeWhile Char.isDigit
    if ds.isEmpty then .nan else .int (digitsVal ds)
  | cs =>
    let ds := cs.takeWhile Char.isDigit
    if ds.isEmpty then .nan else .int (digitsVal ds)

/-! ## The protocol line parser (`parseInfoLine`) -/

/-- Return type of `parseInfoLine`. -/
structure ParsedInfo where
  eval : EngineEval
  pv : Option String
deriving DecidableEq, Repr

/-- `parseInfoLine` from `src/engine/useStockfish.ts`:
```js
const parts = line.split(/\s+/);
const idxScore = parts.indexOf("score");
if (idxScore !== -1 && parts[idxScore + 1]) {
  const type = parts[idxScore + 1] as "cp" | "mate";
  const valueRaw = parts[idxScore + 2];
  const value = valueRaw ? parseInt(valueRaw, 10) : 0;
  const pvIdx = parts.indexOf("pv");
  const pv = pvIdx !== -1 ? parts.slice(pvIdx + 1).join(" ") : undefined;
  return \x7b eval: \x7b type, value \x7d as EngineEval, pv \x7d;
\x7d
return null;
```
`parts[idxScore + 1]` and `valueRaw` are truthiness tests: an absent
element or the empty string is falsy.  `parseInfoToks` is the body after
the split; `parseInfoLine` composes it with the split. -/
def parseInfoToks (parts : List String) : Option ParsedInfo :=
  match findTok "score" parts with
  | some idxScore =>
    match parts.get? (idxScore + 1) with
    | some t =>
      if t = "" then none
      else
        let value :=
          match parts.get? (idxScore + 2) with
          | some r => if r = "" then JSNumber.int 0 else parseIntJS r
          | none => JSNumber.int 0
        let pv :=
          match findTok "pv" parts with
          | some pvIdx => some (joinSpace (parts.drop (pvIdx + 1)))
          | none => none
        some ⟨⟨t, value⟩, pv⟩
    | none => none
  | none => none

/-- See `parseInfoToks`. -/
def parseInfoLine (line : String) : Option ParsedInfo :=
  parseInfoToks (splitWs line)

/-! ## Centipawn canonicalization (`mapEvalToCentipawns`) -/

/-- JavaScript `e.value === 0` (false for `NaN`). -/
def jsEqZero : JSNumber → Bool
  | .int n => n = 0
  | .nan => false

/-- JavaScript `e.value > 0` (false for `NaN`). -/
def jsGtZero : JSNumber → Bool
  | .int n => 0 < n
  | .nan => false

/-- JavaScript multiplication of a number by an integer constant. -/
def jsMul (a : JSNumber) (b : Int) : JSNumber :=
  match a with
  | .int n => .int (n * b)
  | .nan => .nan

/-- `mapEvalToCentipawns` from `src/engine/useStockfish.ts`:
```js
if (e.type === "cp") return e.value;
const sign = e.value === 0 ? 0 : e.value > 0 ? 1 : -1;
return sign * 100000;
```
-/
def mapEvalToCentipawns (e : EngineEval) : JSNumber :=
  if e.type = "cp" then e.value
  else
    jsMul (if jsEqZero e.value then .int 0
           else if jsGtZero e.value then .int 1 else .int (-1)) 100000

/-! ## The engine session (`useStockfish`)

State machine translation of the hook in `src/engine/useStockfish.ts`.
`engineUp` is `engineRef.current !== null` (the worker was created, which
in the source happens together with creating `readyRef` and posting
`"uci"` from inside the readiness promise's executor).  `ready` is
"`readyRef.current` has resolved" (a line containing `"uciok"` arrived and
`"isready"` was posted).  `current` is the head of the promise chain
`queueRef` — the one `analyze` request whose executor has started — and
`pending` are the requests chained behind it, in submission order.

The environment drives the machine with external events:
an `analyze(fen, depth)` call, the completion (success or failure) of the
`fetch`/worker creation started by `ensureEngine`, and a `message` event
carrying one line from the worker.  Each event runs the installed
handlers and every promise continuation they unblock to quiescence,
as the single-threaded JavaScript event loop does, and appends the
commands posted, lines received and results resolved to the transcript. -/

/-- An `analyze(fen, depth)` request. -/
structure Request where
  fen : String
  depth : Int
deriving DecidableEq, Repr

/-- The per-request mutable accumulator `lastEval` / `lastPv`. -/
structure Acc where
  lastEval : EngineEval
  lastPv : Option String
deriving DecidableEq, Repr

/-- Initial accumulator: `lastEval = \x7b type: "cp", value: 0 \x7d`, no PV. -/
def initAcc : Acc := ⟨⟨"cp", JSNumber.int 0⟩, none⟩

/-- Where the head request's executor is suspended:
at `await ensureEngine()` while the engine script is being fetched,
at `await readyRef.current` while the handshake is not complete, or with
its `onMessage` listener attached after posting the search commands. -/
inductive Stage where
  | awaitingSetup
  | awaitingReady
  | listening (acc : Acc)
deriving DecidableEq, Repr

/-- The head request with its submission index and suspension point. -/
structure Task where
  idx : Nat
  req : Request
  stage : Stage
deriving DecidableEq, Repr

/-- The session's state. -/
structure SessState where
  engineUp : Bool
  ready : Bool
  current : Option Task
  pending : List (Nat × Request)
  nextIdx : Nat
deriving DecidableEq, Repr

/-- State at hook creation: no worker, no handshake, empty queue. -/
def initState : SessState := ⟨false, false, none, [], 0⟩

/-- Transcript events: a request submission, a `postMessage` to the worker
(`who` is the request on whose behalf a command is posted, `none` for the
handshake commands), a line received from the worker, and the resolution
of a request's promise. -/
inductive TraceEv where
  | submit (idx : Nat) (req : Request)
  | send (who : Option Nat) (cmd : String)
  | recvLine (line : String)
  | resolve (idx : Nat) (r : EngineResult)
deriving DecidableEq, Repr

/-- The fallback result `\x7b eval: \x7b type: "cp", value: 0 \x7d, bestMove: "0000" \x7d`. -/
def fallbackResult : EngineResult := ⟨⟨"cp", JSNumber.int 0⟩, "0000", none⟩

/-- The three commands `analyze` posts for one request:
`ucinewgame`, `position fen <fen>`, `go depth <depth>`. -/
def reqCmds (i : Nat) (r : Request) : List TraceEv :=
  [ .send (some i) "ucinewgame",
    .send (some i) ("position fen " ++ r.fen),
    .send (some i) ("go depth " ++ toString r.depth) ]

/-- Start executing request `(i, r)` at the head of the chain: the executor
calls `ensureEngine()` (suspending on the fetch when no worker exists yet),
then awaits `readyRef`, and once both are settled posts the three commands
and attaches its line listener. -/
def startTask (st : SessState) (i : Nat) (r : Request) :
    SessState × List TraceEv :=
  if st.engineUp then
    if st.ready then
      ({ st with current := some ⟨i, r, .listening initAcc⟩ }, reqCmds i r)
    else
      ({ st with current := some ⟨i, r, .awaitingReady⟩ }, [])
  else
    ({ st with current := some ⟨i, r, .awaitingSetup⟩ }, [])

/-- After the head request settles, the chain's next `.then` continuation
starts the next queued request (if any). -/
def popNext (st : SessState) : SessState × List TraceEv :=
  match st.pending with
  | [] => ({ st with current := none }, [])
  | (i, r) :: rest =>
    startTask { st with current := none, pending := rest } i r

/-- An `analyze(fen, depth)` call: `queueRef.current =
queueRef.current.then(...)`.  If the chain is idle the new executor starts
at the next microtask checkpoint; otherwise it waits for the requests
ahead of it. -/
def stepSubmit (st : SessState) (r : Request) : SessState × List TraceEv :=
  let i := st.nextIdx
  let st' : SessState := { st with nextIdx := i + 1 }
  match st'.current with
  | some _ =>
    ({ st' with pending := st'.pending ++ [(i, r)] }, [.submit i r])
  | none =>
    ((startTask st' i r).1, .submit i r :: (startTask st' i r).2)

/-- Completion of the engine-script fetch started by `ensureEngine` for the
head request.  On success the worker is created, its handshake listener is
attached and `"uci"` is posted (all synchronous in the source), and the
request goes on to await `readyRef`.  On failure `ensureEngine` throws,
the `catch` in `analyze` resolves the request to the fallback result, and
the next queued request starts. -/
def stepSetup (st : SessState) (ok : Bool) : SessState × List TraceEv :=
  match st.current with
  | some ⟨i, r, .awaitingSetup⟩ =>
    if ok then
      ({ st with engineUp := true, current := some ⟨i, r, .awaitingReady⟩ },
        [.send none "uci"])
    else
      ((popNext { st with current := none }).1,
        .resolve i fallbackResult :: (popNext { st with current := none }).2)
  | _ => (st, [])

/-- A `message` event delivering one line from the worker.  While the
handshake is incomplete the `onMsg` listener from `ensureEngine` reacts to
a line containing `"uciok"` by posting `"isready"`, removing itself and
resolving `readyRef`, which lets a request suspended at
`await readyRef.current` post its commands and attach its listener.  After
the handshake, the head request's `onMessage` listener handles `info `
lines (last-writer-wins accumulation) and the `bestmove ` line (resolve
and detach, letting the next queued request start). -/
def stepRecv (st : SessState) (line : String) : SessState × List TraceEv :=
  if st.engineUp = false then (st, [])
  else if st.ready = false then
    if containsSub line "uciok" then
      let st' : SessState := { st with ready := true }
      match st'.current with
      | some ⟨i, r, .awaitingReady⟩ =>
        ({ st' with current := some ⟨i, r, .listening initAcc⟩ },
          [.recvLine line, .send none "isready"] ++ reqCmds i r)
      | _ => (st', [.recvLine line, .send none "isready"])
    else (st, [.recvLine line])
  else
    match st.current with
    | some ⟨i, r, .listening acc⟩ =>
      if strStartsWith line "info " then
        match parseInfoLine line with
        | some p =>
          ({ st with current := some ⟨i, r, .listening ⟨p.eval, p.pv⟩⟩ },
            [.recvLine line])
        | none => (st, [.recvLine line])
      else if strStartsWith line "bestmove " then
        ((popNext { st with current := none }).1,
          [.recvLine line,
           .resolve i ⟨acc.lastEval, (splitOnSpace line).getD 1 "", acc.lastPv⟩] ++
            (popNext { st with current := none }).2)
      else (st, [.recvLine line])
    | _ => (st, [.recvLine line])

/-- External events driving one session. -/
inductive Ev where
  | submit (r : Request)
  | setupResult (ok : Bool)
  | recv (line : String)
deriving DecidableEq, Repr

/-- One external event and the run-to-quiescence that follows it. -/
def step (st : SessState) : Ev → SessState × List TraceEv
  | .submit r => stepSubmit st r
  | .setupResult ok => stepSetup st ok
  | .recv line => stepRecv st line

/-- Run a script of external events, collecting the transcript. -/
def runFrom (st : SessState) : List Ev → SessState × List TraceEv
  | [] => (st, [])
  | e :: es =>
    ((runFrom (step st e).1 es).1,
      (step st e).2 ++ (runFrom (step st e).1 es).2)

/-- The transcript of a session driven by `evs` from hook creation. -/
def runTrace (evs : List Ev) : List TraceEv := (runFrom initState evs).2

/-- The submission indices of the resolved requests, in resolution order. -/
def resolveIdxs (tr : List TraceEv) : List Nat :=
  tr.filterMap fun e =>
    match e with
    | .resolve k _ => some k
    | _ => none

/-- Number of resolved requests recorded in a transcript. -/
def rcOf (tr : List TraceEv) : Nat := (resolveIdxs tr).length

/-- The informational updates a request's listener applies: for each line
beginning with `info ` that parses, the parsed record (in arrival order). -/
def infoUpdates (lines : List String) : List ParsedInfo :=
  lines.filterMap fun l =>
    if strStartsWith l "info " = true then parseInfoLine l else none

/-- The accumulator after the listener has processed `lines`, starting
from `acc`: each successful parse overwrites both fields
(last-writer-wins). -/
def lastAccFrom (acc : Acc) : List String → Acc
  | [] => acc
  | l :: ls =>
    lastAccFrom
      (match (if strStartsWith l "info " = true then parseInfoLine l
              else none) with
       | some p => ⟨p.eval, p.pv⟩
       | none => acc) ls

/-- The evaluation and PV of the last successfully parsed informational
line, or the zero-centipawn default when there is none. -/
def lastAcc (lines : List String) : Acc :=
  match (infoUpdates lines).getLast? with
  | some p => ⟨p.eval, p.pv⟩
  | none => initAcc

/-- Every transmission made on behalf of request `k + 1` happens strictly
after some resolution of request `k`. -/
def SAR0 (tr : List TraceEv) : Prop :=
  ∀ i k cmd, tr.get? i = some (.send (some (k + 1)) cmd) →
    ∃ m, m < i ∧ ∃ r, tr.get? m = some (.resolve k r)

/-- Every resolution in the transcript directly follows the reception of
its final-answer (`bestmove`) line. -/
def ADJ (tr : List TraceEv) : Prop :=
  ∀ j k r, tr.get? j = some (.resolve k r) →
    ∃ j0 line, j = j0 + 1 ∧ tr.get? j0 = some (.recvLine line) ∧
      strStartsWith line "bestmove " = true

/-- The resolutions so far are exactly requests `0, 1, 2, …` in order. -/
def OrdInv (tr : List TraceEv) : Prop :=
  resolveIdxs tr = List.range (rcOf tr)

/-- The head request is the next to resolve and the queued requests carry
the following consecutive submission indices. -/
def IdxInv (st : SessState) (tr : List TraceEv) : Prop :=
  match st.current with
  | some t =>
    t.idx = rcOf tr ∧
    st.pending.map Prod.fst = List.range' (rcOf tr + 1) st.pending.length ∧
    st.nextIdx = rcOf tr + 1 + st.pending.length
  | none => st.pending = [] ∧ st.nextIdx = rcOf tr

/-- Serialization invariant: ordered resolutions, consecutive queue
indices, per-request transmissions only after the previous request's
resolution, and resolutions only at `bestmove` receptions. -/
def C1Inv (st : SessState) (tr : List TraceEv) : Prop :=
  OrdInv tr ∧ IdxInv st tr ∧ SAR0 tr ∧ ADJ tr

/-- The completed-handshake transcript pattern: a `uci` transmission, then
a received acknowledgment line containing `uciok`, directly followed by
the `isready` transmission — and before the acknowledgment the `uci`
transmission is the only transmission at all. -/
def UOK (tr : List TraceEv) : Prop :=
  ∃ a b, a < b ∧
    tr.get? a = some (.send none "uci") ∧
    (∃ line, tr.get? b = some (.recvLine line) ∧
      containsSub line "uciok" = true) ∧
    tr.get? (b + 1) = some (.send none "isready") ∧
    (∀ p w c, tr.get? p = some (.send w c) → p < b → p = a)

/-- Handshake invariant tying the session state to its transcript. -/
def HsInv (st : SessState) (tr : List TraceEv) : Prop :=
  (st.engineUp = false →
    st.ready = false ∧
    (∀ w c, TraceEv.send w c ∉ tr) ∧
    (∀ l, TraceEv.recvLine l ∉ tr)) ∧
  (st.engineUp = true → st.ready = false →
    (∃ a, tr.get? a = some (.send none "uci") ∧
      ∀ p w c, tr.get? p = some (.send w c) → p = a ∧ w = none ∧ c = "uci") ∧
    (∀ l, TraceEv.recvLine l ∈ tr → containsSub l "uciok" = false)) ∧
  (st.ready = true → UOK tr) ∧
  (∀ p k cmd, tr.get? p = some (.send (some k) cmd) → st.ready = true) ∧
  (∀ i rq, st.current = some ⟨i, rq, .awaitingSetup⟩ → st.engineUp = false)

/-- A wellformed protocol token: nonempty text without whitespace, so that
joining tokens with single spaces and re-splitting on whitespace is the
identity. -/
def GoodTok (t : String) : Prop :=
  t ≠ "" ∧ ∀ c ∈ t.toList, isWsChar c = false

instance : DecidablePred GoodTok := fun t =>
  decidable_of_iff (t ≠ "" ∧ ∀ c ∈ t.toList, isWsChar c = false) Iff.rfl

/-! ## General lemmas about the string primitives -/

theorem toList_eq_nil {s : String} (h : s.toList = []) : s = "" := by
  cases s with
  | mk d =>
    have : d = [] := h
    rw [this]

theorem splitWsGo_nonws (tc : List Char) (h : ∀ c ∈ tc, isWsChar c = false)
    (rest cur : List Char) :
    splitWsGo false (tc ++ rest) cur =
      splitWsGo false rest (tc.reverse ++ cur) := by
  induction tc generalizing cur with
  | nil => simp
  | cons c cs ih =>
    rw [List.cons_append, splitWsGo, if_neg]
    · rw [ih (fun x hx => h x (List.mem_cons_of_mem _ hx))]
      simp
    · simp [h c (List.mem_cons_self _ _)]

theorem splitWsGo_skip_exit (c : Char) (hc : isWsChar c = false)
    (cs : List Char) :
    splitWsGo true (c :: cs) [] = splitWsGo false (c :: cs) [] := by
  simp [splitWsGo, hc]

theorem joinSpace_head_nonws (ts : List String) (hne : ts ≠ [])
    (h : ∀ t ∈ ts, GoodTok t) :
    ∃ c cs, (joinSpace ts).toList = c :: cs ∧ isWsChar c = false := by
  match ts with
  | [t] =>
    obtain ⟨h1, h2⟩ := h t (List.mem_cons_self _ _)
    match hm : t.toList with
    | [] => exact absurd (toList_eq_nil hm) h1
    | c :: cs =>
      exact ⟨c, cs, rfl,
        h2 c (by rw [hm]; exact List.mem_cons_self _ _)⟩
  | t :: t' :: ts' =>
    obtain ⟨h1, h2⟩ := h t (List.mem_cons_self _ _)
    match hm : t.toList with
    | [] => exact absurd (toList_eq_nil hm) h1
    | c :: cs =>
      refine ⟨c, cs ++ (" " ++ joinSpace (t' :: ts')).toList, ?_,
        h2 c (by rw [hm]; exact List.mem_cons_self _ _)⟩
      have h3 : (joinSpace (t :: t' :: ts')).toList =
          (t.toList ++ [' ']) ++ (joinSpace (t' :: ts')).toList := rfl
      have h4 : (" " ++ joinSpace (t' :: ts')).toList =
          ' ' :: (joinSpace (t' :: ts')).toList := rfl
      rw [h3, hm, h4]
      simp

theorem splitWs_joinSpace (ts : List String) (hne : ts ≠ [])
    (h : ∀ t ∈ ts, GoodTok t) :
    splitWs (joinSpace ts) = ts := by
  induction ts with
  | nil => exact absurd rfl hne
  | cons t ts' ih =>
    obtain ⟨h1, h2⟩ := h t (List.mem_cons_self _ _)
    match ts' with
    | [] =>
      have e0 : splitWs (joinSpace [t]) = splitWsGo false (t.toList ++ []) [] := by
        simp [splitWs, joinSpace]
      rw [e0, splitWsGo_nonws t.toList h2, splitWsGo]
      simp
    | t' :: ts'' =>
      have hgood : ∀ x ∈ t' :: ts'', GoodTok x :=
        fun x hx => h x (List.mem_cons_of_mem _ hx)
      obtain ⟨c, cs, hcs, hc⟩ :=
        joinSpace_head_nonws (t' :: ts'') (by simp) hgood
      show splitWs (t ++ " " ++ joinSpace (t' :: ts'')) = _
      have hsplit : (t ++ " " ++ joinSpace (t' :: ts'')).toList =
          t.toList ++ (' ' :: (joinSpace (t' :: ts'')).toList) := by
        have e1 : (t ++ " " ++ joinSpace (t' :: ts'')).toList =
            (t.toList ++ [' ']) ++ (joinSpace (t' :: ts'')).toList := rfl
        rw [e1]
        simp
      rw [splitWs, hsplit, splitWsGo_nonws t.toList h2, splitWsGo,
        if_pos (by decide)]
      rw [hcs, splitWsGo_skip_exit c hc, ← hcs, ← splitWs,
        ih (by simp) hgood]
      simp

theorem findTok_append_not_mem (tok : String) (pre l : List String)
    (h : tok ∉ pre) :
    findTok tok (pre ++ l) = (findTok tok l).map (· + pre.length) := by
  induction pre with
  | nil =>
    cases hf : findTok tok l <;> simp [hf]
  | cons p ps ih =>
    have hp : p ≠ tok := fun e => h (e ▸ List.mem_cons_self _ _)
    rw [List.cons_append, findTok, if_neg hp,
      ih (fun hm => h (List.mem_cons_of_mem _ hm))]
    cases hf : findTok tok l
    · simp [hf]
    · simp [hf]
      omega

theorem findTok_not_mem (tok : String) (l : List String) (h : tok ∉ l) :
    findTok tok l = none := by
  induction l with
  | nil => rfl
  | cons p ps ih =>
    have hp : p ≠ tok := fun e => h (e ▸ List.mem_cons_self _ _)
    rw [findTok, if_neg hp, ih (fun hm => h (List.mem_cons_of_mem _ hm))]
    rfl

theorem get?_append_off (pre l : List α) (k : Nat) :
    (pre ++ l).get? (pre.length + k) = l.get? k := by
  induction pre with
  | nil => simp
  | cons p ps ih =>
    have h1 : ps.length + 1 + k = (ps.length + k) + 1 := by omega
    simp only [List.cons_append, List.length_cons, h1, List.get?_cons_succ]
    exact ih

theorem drop_append_off (pre l : List α) (k : Nat) :
    (pre ++ l).drop (pre.length + k) = l.drop k := by
  induction pre with
  | nil => simp
  | cons p ps ih =>
    have h1 : ps.length + 1 + k = (ps.length + k) + 1 := by omega
    simp only [List.cons_append, List.length_cons, h1, List.drop_succ_cons]
    exact ih

/-! ## General lemmas about positions in a transcript -/

theorem get?_some_lt {α : Type} {l : List α} {i : Nat} {x : α}
    (h : l.get? i = some x) : i < l.length := by
  by_contra hc
  rw [List.get?_eq_none.mpr (Nat.le_of_not_lt hc)] at h
  cases h

theorem get?_append_l {α : Type} {a : List α} (b : List α) {i : Nat} {x : α}
    (h : a.get? i = some x) : (a ++ b).get? i = some x := by
  rw [List.get?_append (get?_some_lt h)]
  exact h

theorem get?_append_split {α : Type} {a b : List α} {i : Nat} {x : α}
    (h : (a ++ b).get? i = some x) :
    (i < a.length ∧ a.get? i = some x) ∨
      (∃ j, i = a.length + j ∧ b.get? j = some x) := by
  by_cases hi : i < a.length
  · left
    exact ⟨hi, by rw [List.get?_append hi] at h; exact h⟩
  · right
    refine ⟨i - a.length, by omega, ?_⟩
    rw [List.get?_append_right (Nat.le_of_not_lt hi)] at h
    exact h

theorem mem_of_get? {α : Type} {l : List α} {i : Nat} {x : α}
    (h : l.get? i = some x) : x ∈ l :=
  List.get?_mem h

theorem get?_of_mem' {α : Type} {l : List α} {x : α} (h : x ∈ l) :
    ∃ i, i < l.length ∧ l.get? i = some x := by
  obtain ⟨i, hi⟩ := List.get?_of_mem h
  exact ⟨i, get?_some_lt hi, hi⟩

theorem resolveIdxs_append (a b : List TraceEv) :
    resolveIdxs (a ++ b) = resolveIdxs a ++ resolveIdxs b := by
  simp [resolveIdxs]

theorem mem_resolveIdxs {tr : List TraceEv} {k : Nat} :
    k ∈ resolveIdxs tr ↔ ∃ r, TraceEv.resolve k r ∈ tr := by
  constructor
  · intro h
    obtain ⟨e, he, hk⟩ := List.mem_filterMap.mp h
    cases e with
    | resolve k2 r =>
      cases hk
      exact ⟨r, he⟩
    | submit i q => cases hk
    | send w c => cases hk
    | recvLine l => cases hk
  · rintro ⟨r, hr⟩
    exact List.mem_filterMap.mpr ⟨.resolve k r, hr, rfl⟩

/-! ## Runs: decomposition and invariant preservation -/

theorem runFrom_append (st : SessState) (a b : List Ev) :
    runFrom st (a ++ b) =
      ((runFrom (runFrom st a).1 b).1,
        (runFrom st a).2 ++ (runFrom (runFrom st a).1 b).2) := by
  induction a generalizing st with
  | nil => simp [runFrom]
  | cons e es ih =>
    show runFrom st (e :: (es ++ b)) = _
    simp only [runFrom, ih, List.append_assoc]

theorem runFrom_inv (pred : Ev → Prop) (P : SessState → List TraceEv → Prop)
    (hstep : ∀ st tr e, pred e → P st tr →
      P (step st e).1 (tr ++ (step st e).2))
    (evs : List Ev) (hevs : ∀ e ∈ evs, pred e) :
    ∀ st tr, P st tr → P (runFrom st evs).1 (tr ++ (runFrom st evs).2) := by
  induction evs with
  | nil =>
    intro st tr h
    simpa [runFrom] using h
  | cons e es ih =>
    intro st tr h
    have h1 := hstep st tr e (hevs e (List.mem_cons_self _ _)) h
    have h2 := ih (fun x hx => hevs x (List.mem_cons_of_mem _ hx))
      (step st e).1 (tr ++ (step st e).2) h1
    simpa [runFrom, List.append_assoc] using h2

/-! ## C9: centipawn canonicalization -/

/-- C9: `mapEvalToCentipawns(\x7bcp, v\x7d) = v` for every integer `v`, and
`mapEvalToCentipawns(\x7bmate, v\x7d) = sign(v) * 100000` for every integer `v`
(`Int.sign` is `0` at `0`, so the mate-in-0 edge case returns `0` without
raising an error). -/
theorem mapEvalToCentipawns_cp_and_mate (v : Int) :
    mapEvalToCentipawns ⟨"cp", JSNumber.int v⟩ = JSNumber.int v ∧
    mapEvalToCentipawns ⟨"mate", JSNumber.int v⟩ =
      JSNumber.int (v.sign * 100000) := by
  constructor
  · simp [mapEvalToCentipawns]
  · have hne : ("mate" : String) ≠ "cp" := by decide
    rcases lt_trichotomy v 0 with hv | hv | hv
    · have h0 : jsEqZero (JSNumber.int v) = false := by
        simp [jsEqZero, hv.ne]
      have h1 : jsGtZero (JSNumber.int v) = false := by
        simp [jsGtZero]
        omega
      simp [mapEvalToCentipawns, hne, h0, h1, jsMul, Int.sign_eq_neg_one_of_neg hv]
    · subst hv
      simp [mapEvalToCentipawns, hne, jsEqZero, jsMul]
    · have h0 : jsEqZero (JSNumber.int v) = false := by
        simp [jsEqZero, hv.ne']
      have h1 : jsGtZero (JSNumber.int v) = true := by
        simp [jsGtZero, hv]
      simp [mapEvalToCentipawns, hne, h0, h1, jsMul, Int.sign_eq_one_of_pos hv]

/-! ## C7: lines the parser rejects -/

/-- C7 counterexample: the claim says a line whose token after `score` is
not one of the two kind tags yields "no match", but `parseInfoLine` does
not validate the kind tag: `"a score banana 5"` parses to a record with
`type = "banana"` instead of `null`. -/
theorem parseInfoLine_kind_not_validated :
    parseInfoLine "a score banana 5" =
      some ⟨⟨"banana", JSNumber.int 5⟩, none⟩ ∧
    (some (⟨⟨"banana", JSNumber.int 5⟩, none⟩ : ParsedInfo) ≠
      (none : Option ParsedInfo)) := by
  constructor
  · rfl
  · intro h
    cases h

/-- C7 amended: `parseInfoLine` is a total function (never throws) and
returns "no match" (`none`) exactly when the line has no `score` token or
the token after the first `score` token is missing or empty; the kind
token after `score` is not validated. -/
theorem parseInfoLine_none_iff (line : String) :
    parseInfoLine line = none ↔
      (findTok "score" (splitWs line) = none ∨
        ∃ i, findTok "score" (splitWs line) = some i ∧
          ((splitWs line)[i + 1]? = none ∨
            (splitWs line)[i + 1]? = some "")) := by
  cases hf : findTok "score" (splitWs line) with
  | none => simp [parseInfoLine, parseInfoToks, hf]
  | some i =>
    cases hg : (splitWs line)[i + 1]? with
    | none =>
      simp [parseInfoLine, parseInfoToks, hf, hg]
      exact List.getElem?_eq_none_iff.mp hg
    | some t =>
      by_cases ht : t = ""
      · subst ht
        simp [parseInfoLine, parseInfoToks, hf, hg]
      · simp [parseInfoLine, parseInfoToks, hf, hg, ht]
        exact (List.getElem?_eq_some.mp hg).1

/-! ## C8: the magnitude token -/

/-- C8 counterexample: the claim says a non-numeric magnitude token yields
evaluation value zero, but `parseInt` returns `NaN` on non-numeric input
and the code only defaults to `0` when the token is missing or empty:
`"x score cp zz"` parses with value `NaN`, not `0`. -/
theorem parseInfoLine_nonnumeric_value_nan :
    parseInfoLine "x score cp zz" = some ⟨⟨"cp", JSNumber.nan⟩, none⟩ ∧
    JSNumber.nan ≠ JSNumber.int 0 := by
  constructor
  · rfl
  · intro h
    cases h

/-- C8 amended: when the `score` token is followed by a (non-empty) kind
token, a missing or empty magnitude token defaults the evaluation value to
`0`, while a present non-empty magnitude token is passed to `parseInt`,
whose result is `NaN` (not `0`) when the token is non-numeric. -/
theorem parseInfoLine_value_default (line : String) (i : Nat) (t : String)
    (h1 : findTok "score" (splitWs line) = some i)
    (h2 : (splitWs line)[i + 1]? = some t)
    (h3 : t ≠ "") :
    (((splitWs line)[i + 2]? = none ∨ (splitWs line)[i + 2]? = some "") →
      (parseInfoLine line).map (fun p => p.eval.value) =
        some (JSNumber.int 0)) ∧
    (∀ r, (splitWs line)[i + 2]? = some r → r ≠ "" →
      (parseInfoLine line).map (fun p => p.eval.value) =
        some (parseIntJS r)) := by
  constructor
  · intro hmiss
    rcases hmiss with hm | hm <;> simp [parseInfoLine, parseInfoToks, h1, h2, h3, hm]
  · intro r hr hrne
    simp [parseInfoLine, parseInfoToks, h1, h2, h3, hr, hrne]

/-- C8 amended, witness: on `"a score cp"` the magnitude token is missing
and the parsed value is `0`. -/
theorem parseInfoLine_value_default_witness :
    (parseInfoLine "a score cp").map (fun p => p.eval.value) =
      some (JSNumber.int 0) :=
  (parseInfoLine_value_default "a score cp" 1 "cp" rfl rfl
    (by decide)).1 (Or.inl rfl)

/-! ## C6: well-formed informational lines -/

/-- C6: for every line of the form `... score cp <v> ... pv <m1> <m2> ...`
(tokens joined by single spaces, `<v>` a token `parseInt` reads as the
integer `v`, no `score` token before the shown one, no `pv` token before
the shown one), `parseInfoLine` returns evaluation `\x7bcp, v\x7d` and principal
variation `"m1 m2 ..."` — all tokens after the first `pv` token rejoined
with single spaces; and when no `pv` token is present anywhere, no
principal variation is produced. -/
theorem parseInfoLine_score_cp_pv (pre mid moves : List String)
    (vstr : String) (v : Int)
    (hpre : ∀ t ∈ pre, GoodTok t) (hmid : ∀ t ∈ mid, GoodTok t)
    (hmoves : ∀ t ∈ moves, GoodTok t)
    (hv : GoodTok vstr) (hvv : parseIntJS vstr = JSNumber.int v)
    (hscore : "score" ∉ pre) (hpv1 : "pv" ∉ pre) (hpv2 : "pv" ∉ mid) :
    parseInfoLine
        (joinSpace ((pre ++ ["score", "cp", vstr] ++ mid) ++ "pv" :: moves)) =
      some ⟨⟨"cp", JSNumber.int v⟩, some (joinSpace moves)⟩ ∧
    parseInfoLine (joinSpace (pre ++ ["score", "cp", vstr] ++ mid)) =
      some ⟨⟨"cp", JSNumber.int v⟩, none⟩ := by
  have hvpv : vstr ≠ "pv" := by
    intro e
    rw [e] at hvv
    have hn : parseIntJS "pv" = JSNumber.nan := by decide
    rw [hn] at hvv
    cases hvv
  have hgood3 : ∀ t ∈ (["score", "cp", vstr] : List String), GoodTok t := by
    intro t ht
    simp only [List.mem_cons, List.mem_nil_iff, or_false] at ht
    rcases ht with h | h | h
    · subst h
      exact ⟨by decide, by decide⟩
    · subst h
      exact ⟨by decide, by decide⟩
    · subst h
      exact hv
  have hgoodpv : GoodTok "pv" := ⟨by decide, by decide⟩
  have hgoodA : ∀ t ∈ pre ++ ["score", "cp", vstr] ++ mid, GoodTok t := by
    intro t ht
    rcases List.mem_append.mp ht with ht | ht
    · rcases List.mem_append.mp ht with ht | ht
      · exact hpre t ht
      · exact hgood3 t ht
    · exact hmid t ht
  have hpvA : "pv" ∉ pre ++ ["score", "cp", vstr] ++ mid := by
    intro ht
    rcases List.mem_append.mp ht with ht | ht
    · rcases List.mem_append.mp ht with ht | ht
      · exact hpv1 ht
      · simp only [List.mem_cons, List.mem_nil_iff, or_false] at ht
        rcases ht with h | h | h
        · exact absurd h (by decide)
        · exact absurd h (by decide)
        · exact hvpv h.symm
    · exact hpv2 ht
  have hshape : pre ++ ["score", "cp", vstr] ++ mid =
      pre ++ "score" :: "cp" :: vstr :: mid := by
    simp
  have hshape1 : (pre ++ ["score", "cp", vstr] ++ mid) ++ "pv" :: moves =
      pre ++ "score" :: "cp" :: vstr :: (mid ++ "pv" :: moves) := by
    simp
  constructor
  · -- the line with a pv section
    have hgood1 : ∀ t ∈ (pre ++ ["score", "cp", vstr] ++ mid) ++ "pv" :: moves,
        GoodTok t := by
      intro t ht
      rcases List.mem_append.mp ht with ht | ht
      · exact hgoodA t ht
      · rcases List.mem_cons.mp ht with h | h
        · subst h
          exact hgoodpv
        · exact hmoves t h
    have hne1 : (pre ++ ["score", "cp", vstr] ++ mid) ++ "pv" :: moves ≠ [] := by
      simp
    have hfs : findTok "score"
        ((pre ++ ["score", "cp", vstr] ++ mid) ++ "pv" :: moves) =
        some pre.length := by
      rw [hshape1, findTok_append_not_mem _ _ _ hscore]
      simp [findTok]
    have hget1 : ((pre ++ ["score", "cp", vstr] ++ mid) ++ "pv" :: moves).get?
        (pre.length + 1) = some "cp" := by
      rw [hshape1, get?_append_off]
      rfl
    have hget2 : ((pre ++ ["score", "cp", vstr] ++ mid) ++ "pv" :: moves).get?
        (pre.length + 2) = some vstr := by
      rw [hshape1, get?_append_off]
      rfl
    have hfp : findTok "pv"
        ((pre ++ ["score", "cp", vstr] ++ mid) ++ "pv" :: moves) =
        some (pre ++ ["score", "cp", vstr] ++ mid).length := by
      rw [findTok_append_not_mem _ _ _ hpvA]
      simp [findTok]
    have hdrop : ((pre ++ ["score", "cp", vstr] ++ mid) ++ "pv" :: moves).drop
        ((pre ++ ["score", "cp", vstr] ++ mid).length + 1) = moves := by
      rw [drop_append_off]
      rfl
    rw [parseInfoLine, splitWs_joinSpace _ hne1 hgood1]
    simp only [parseInfoToks, hfs, hget1, hget2, hfp, hdrop]
    rw [if_neg (by decide : ¬("cp" : String) = ""), if_neg hv.1, hvv]
  · -- the line without a pv token
    have hne2 : pre ++ ["score", "cp", vstr] ++ mid ≠ [] := by simp
    have hfs : findTok "score" (pre ++ ["score", "cp", vstr] ++ mid) =
        some pre.length := by
      rw [hshape, findTok_append_not_mem _ _ _ hscore]
      simp [findTok]
    have hget1 : (pre ++ ["score", "cp", vstr] ++ mid).get?
        (pre.length + 1) = some "cp" := by
      rw [hshape, get?_append_off]
      rfl
    have hget2 : (pre ++ ["score", "cp", vstr] ++ mid).get?
        (pre.length + 2) = some vstr := by
      rw [hshape, get?_append_off]
      rfl
    have hfp : findTok "pv" (pre ++ ["score", "cp", vstr] ++ mid) = none :=
      findTok_not_mem _ _ hpvA
    rw [parseInfoLine, splitWs_joinSpace _ hne2 hgoodA]
    simp only [parseInfoToks, hfs, hget1, hget2, hfp]
    rw [if_neg (by decide : ¬("cp" : String) = ""), if_neg hv.1, hvv]

/-! ## C3: last-writer-wins aggregation of informational lines -/

theorem strStartsWith_iff {s pre : String} :
    strStartsWith s pre = true ↔ ∃ t, pre.toList ++ t = s.toList := by
  rw [strStartsWith, List.isPrefixOf_iff_prefix]
  rfl

theorem bestmove_not_info {s : String}
    (h : strStartsWith s "bestmove " = true) :
    strStartsWith s "info " = false := by
  obtain ⟨t, ht⟩ := strStartsWith_iff.mp h
  by_contra hc
  obtain ⟨t2, ht2⟩ := strStartsWith_iff.mp (by
    cases hi : strStartsWith s "info " with
    | true => rfl
    | false => exact absurd hi hc)
  rw [← ht] at ht2
  exact absurd (List.head_eq_of_cons_eq ht2) (by decide)

theorem eta_current (st : SessState) (t : Task)
    (hcur : st.current = some t) :
    { st with current := some t } = st := by
  obtain ⟨eu, rd, cur, pen, ni⟩ := st
  simp only at hcur
  rw [hcur]

theorem stepRecv_listening (st : SessState) (k : Nat) (q : Request)
    (acc : Acc) (l : String)
    (hup : st.engineUp = true) (hready : st.ready = true)
    (hcur : st.current = some ⟨k, q, .listening acc⟩)
    (hnb : strStartsWith l "bestmove " = false) :
    stepRecv st l =
      ({ st with current := some ⟨k, q, .listening
          (match (if strStartsWith l "info " = true then parseInfoLine l
                  else none) with
           | some p => ⟨p.eval, p.pv⟩
           | none => acc)⟩ }, [.recvLine l]) := by
  obtain ⟨eu, rd, cur, pen, ni⟩ := st
  simp only at hup hready hcur
  subst hup
  subst hready
  subst hcur
  cases hinfo : strStartsWith l "info " with
  | true =>
    cases hp : parseInfoLine l with
    | some p => simp [stepRecv, hinfo, hp]
    | none => simp [stepRecv, hinfo, hp]
  | false => simp [stepRecv, hinfo, hnb]

theorem runFrom_listening (lines : List String)
    (h : ∀ l ∈ lines, strStartsWith l "bestmove " = false) :
    ∀ (st : SessState) (k : Nat) (q : Request) (acc : Acc),
      st.engineUp = true → st.ready = true →
      st.current = some ⟨k, q, .listening acc⟩ →
      runFrom st (lines.map Ev.recv) =
        ({ st with current := some ⟨k, q, .listening (lastAccFrom acc lines)⟩ },
          lines.map TraceEv.recvLine) := by
  induction lines with
  | nil =>
    intro st k q acc hup hready hcur
    rw [List.map_nil, runFrom, lastAccFrom, eta_current st _ hcur]
    rfl
  | cons l ls ih =>
    intro st k q acc hup hready hcur
    set acc2 : Acc :=
      (match (if strStartsWith l "info " = true then parseInfoLine l
              else none) with
       | some p => ⟨p.eval, p.pv⟩
       | none => acc) with hacc2
    have hstep := stepRecv_listening st k q acc l hup hready hcur
      (h l (List.mem_cons_self _ _))
    have hstep1 : (step st (Ev.recv l)).1 =
        { st with current := some ⟨k, q, .listening acc2⟩ } := by
      rw [step, hstep]
    have hstep2 : (step st (Ev.recv l)).2 = [.recvLine l] := by
      rw [step, hstep]
    have hih := ih (fun x hx => h x (List.mem_cons_of_mem _ hx))
      { st with current := some ⟨k, q, .listening acc2⟩ } k q acc2
      hup hready rfl
    rw [List.map_cons, runFrom, hstep1, hstep2, hih, lastAccFrom, ← hacc2]
    rfl

theorem getLast?_cons_eq {α : Type} (x : α) (xs : List α) :
    (x :: xs).getLast? = some (xs.getLast?.getD x) := by
  induction xs generalizing x with
  | nil => rfl
  | cons y ys ih =>
    rw [List.getLast?_cons_cons, ih y]
    rfl

theorem lastAccFrom_eq (lines : List String) :
    ∀ acc : Acc,
      lastAccFrom acc lines =
        match (infoUpdates lines).getLast? with
        | some p => ⟨p.eval, p.pv⟩
        | none => acc := by
  induction lines with
  | nil =>
    intro acc
    rfl
  | cons l ls ih =>
    intro acc
    cases hp : (if strStartsWith l "info " = true then parseInfoLine l
                else none) with
    | some p =>
      rw [lastAccFrom, hp, ih]
      have hiu : infoUpdates (l :: ls) = p :: infoUpdates ls := by
        rw [infoUpdates, List.filterMap_cons, hp]
        rfl
      rw [hiu, getLast?_cons_eq]
      cases hl : (infoUpdates ls).getLast? with
      | some q => rfl
      | none => rfl
    | none =>
      rw [lastAccFrom, hp, ih]
      have hiu : infoUpdates (l :: ls) = infoUpdates ls := by
        rw [infoUpdates, List.filterMap_cons, hp]
        rfl
      rw [hiu]

theorem lastAcc_eq_lastAccFrom (lines : List String) :
    lastAcc lines = lastAccFrom initAcc lines := by
  rw [lastAcc, lastAccFrom_eq]

/-- C3: for a request in flight (listener attached, fresh accumulator) and
any finite sequence of inbound lines none of which is a final-answer line,
followed by a final-answer (`bestmove `) line, the request resolves with
exactly the evaluation and PV of the last successfully parsed
informational line (`lastAcc`, which replaces both fields on each
successful parse and defaults to the zero centipawn evaluation with no PV
when no informational line ever parsed). -/
theorem analyze_resolves_last_info (st : SessState) (k : Nat) (q : Request)
    (lines : List String) (bm : String)
    (hup : st.engineUp = true) (hready : st.ready = true)
    (hcur : st.current = some ⟨k, q, .listening initAcc⟩)
    (hlines : ∀ l ∈ lines, strStartsWith l "bestmove " = false)
    (hbm : strStartsWith bm "bestmove " = true) :
    TraceEv.resolve k
        ⟨(lastAcc lines).lastEval, (splitOnSpace bm).getD 1 "",
          (lastAcc lines).lastPv⟩ ∈
      (runFrom st ((lines ++ [bm]).map Ev.recv)).2 := by
  rw [List.map_append, runFrom_append,
    runFrom_listening lines hlines st k q initAcc hup hready hcur]
  rw [lastAcc_eq_lastAccFrom]
  set acc1 : Acc := lastAccFrom initAcc lines with hacc1
  have hcur1 : ({ st with current := some ⟨k, q, .listening acc1⟩ }
      : SessState).current = some ⟨k, q, .listening acc1⟩ := rfl
  simp only [List.map_cons, List.map_nil, runFrom]
  rw [step]
  simp only [stepRecv, hup, hready, hcur1, bestmove_not_info hbm, hbm]
  simp

/-- C3 witness: scenario B — one informational line
`info depth 10 score cp 23 pv e2e4 e7e5`, then `bestmove e2e4`. -/
theorem analyze_resolves_last_info_witness :
    TraceEv.resolve 0
        ⟨(lastAcc ["info depth 10 score cp 23 pv e2e4 e7e5"]).lastEval,
          (splitOnSpace "bestmove e2e4").getD 1 "",
          (lastAcc ["info depth 10 score cp 23 pv e2e4 e7e5"]).lastPv⟩ ∈
      (runFrom
        ⟨true, true, some ⟨0, ⟨"startpos", 14⟩, .listening initAcc⟩, [], 1⟩
        ((["info depth 10 score cp 23 pv e2e4 e7e5"] ++
          ["bestmove e2e4"]).map Ev.recv)).2 :=
  analyze_resolves_last_info _ 0 _ _ _ rfl rfl rfl (by decide) (by decide)

/-! ## C10: extraction of the best-move token -/

theorem toList_append (a b : String) :
    (a ++ b).toList = a.toList ++ b.toList := rfl

theorem splitOnSpaceGo_nonsp (tc : List Char) (h : ∀ c ∈ tc, c ≠ ' ')
    (rest cur : List Char) :
    splitOnSpaceGo (tc ++ rest) cur = splitOnSpaceGo rest (tc.reverse ++ cur) := by
  induction tc generalizing cur with
  | nil => simp
  | cons c cs ih =>
    rw [List.cons_append, splitOnSpaceGo, if_neg (h c (List.mem_cons_self _ _))]
    rw [ih (fun x hx => h x (List.mem_cons_of_mem _ hx))]
    simp

theorem splitOnSpace_bestmove (m rest : String) (_hmne : m ≠ "")
    (hsp : ∀ c ∈ m.toList, c ≠ ' ') :
    splitOnSpace ("bestmove " ++ m ++ " " ++ rest) =
      "bestmove" :: m :: splitOnSpace rest := by
  have e1 : ("bestmove " ++ m ++ " " ++ rest).toList
      = (("bestmove ".toList ++ m.toList) ++ [' ']) ++ rest.toList := rfl
  have e2 : ("bestmove " ++ m ++ " " ++ rest).toList
      = "bestmove ".toList ++ (m.toList ++ (' ' :: rest.toList)) := by
    rw [e1]
    simp
  have h2 : ∀ X : List Char,
      splitOnSpaceGo ("bestmove ".toList ++ X) [] =
        "bestmove" :: splitOnSpaceGo X [] := fun X => rfl
  rw [splitOnSpace, e2, h2, splitOnSpaceGo_nonsp m.toList hsp, splitOnSpaceGo,
    if_pos rfl]
  simp [splitOnSpace]

theorem stepRecv_bestmove (st : SessState) (k : Nat) (q : Request)
    (acc : Acc) (bm : String)
    (hup : st.engineUp = true) (hready : st.ready = true)
    (hcur : st.current = some ⟨k, q, .listening acc⟩)
    (hbm : strStartsWith bm "bestmove " = true) :
    (stepRecv st bm).2 =
      [.recvLine bm,
       .resolve k ⟨acc.lastEval, (splitOnSpace bm).getD 1 "", acc.lastPv⟩] ++
        (popNext { st with current := none }).2 ∧
    (stepRecv st bm).1 = (popNext { st with current := none }).1 := by
  obtain ⟨eu, rd, cur, pen, ni⟩ := st
  simp only at hup hready hcur
  subst hup
  subst hready
  subst hcur
  constructor
  · simp [stepRecv, bestmove_not_info hbm, hbm]
  · simp [stepRecv, bestmove_not_info hbm, hbm]

/-- C10: on a final-answer line, the in-flight request resolves with
`bestMove` exactly the second element of splitting the line on the single
space character; in particular for `bestmove <m> <anything>` (e.g. a
`ponder <move>` continuation) the extracted token is `<m>`, so further
content never affects the result. -/
theorem bestmove_token_extraction (st : SessState) (k : Nat) (q : Request)
    (acc : Acc) (bm : String)
    (hup : st.engineUp = true) (hready : st.ready = true)
    (hcur : st.current = some ⟨k, q, .listening acc⟩)
    (hbm : strStartsWith bm "bestmove " = true) :
    TraceEv.resolve k ⟨acc.lastEval, (splitOnSpace bm).getD 1 "", acc.lastPv⟩ ∈
      (stepRecv st bm).2 ∧
    (∀ m rest : String, m ≠ "" → (∀ c ∈ m.toList, c ≠ ' ') →
      (splitOnSpace ("bestmove " ++ m ++ " " ++ rest)).getD 1 "" = m) := by
  constructor
  · rw [(stepRecv_bestmove st k q acc bm hup hready hcur hbm).1]
    simp
  · intro m rest hm hsp
    rw [splitOnSpace_bestmove m rest hm hsp]
    rfl

/-- C10 witness: a `bestmove e2e4 ponder d7d5` line resolves the in-flight
request with best move `e2e4`. -/
theorem bestmove_token_extraction_witness :
    TraceEv.resolve 0
        ⟨initAcc.lastEval,
          (splitOnSpace "bestmove e2e4 ponder d7d5").getD 1 "",
          initAcc.lastPv⟩ ∈
      (stepRecv
        ⟨true, true, some ⟨0, ⟨"startpos", 14⟩, .listening initAcc⟩, [], 1⟩
        "bestmove e2e4 ponder d7d5").2 :=
  (bestmove_token_extraction _ 0 _ initAcc _ rfl rfl rfl (by decide)).1

/-- C6 witness: the line `info depth 15 score cp 23 nodes pv e2e4 e7e5`
parses to `\x7bcp, 23\x7d` with PV `"e2e4 e7e5"`. -/
theorem parseInfoLine_score_cp_pv_witness :
    parseInfoLine
        (joinSpace ((["info", "depth", "15"] ++ ["score", "cp", "23"] ++
          ["nodes"]) ++ "pv" :: ["e2e4", "e7e5"])) =
      some ⟨⟨"cp", JSNumber.int 23⟩, some (joinSpace ["e2e4", "e7e5"])⟩ :=
  (parseInfoLine_score_cp_pv ["info", "depth", "15"] ["nodes"]
    ["e2e4", "e7e5"] "23" 23 (by decide) (by decide) (by decide) (by decide)
    (by decide) (by decide) (by decide) (by decide)).1

/-! ## C4: behaviour when establishing the engine fails -/

/-- C4 counterexample: the claim says that once setup fails, every
request resolves to the fallback for the rest of the session (at most one
setup attempt).  In the code `ensureEngine` retries on the next `analyze`
call (the guard only skips setup once `engineRef`/`readyRef` are set), so
after a failed first attempt a second request whose setup succeeds
resolves with a real engine answer, not the fallback. -/
theorem setup_retry_counterexample :
    TraceEv.resolve 1 ⟨⟨"cp", JSNumber.int 0⟩, "e2e4", none⟩ ∈
      runTrace [.submit ⟨"f0", 14⟩, .setupResult false, .submit ⟨"f1", 14⟩,
        .setupResult true, .recv "uciok", .recv "bestmove e2e4"] ∧
    (⟨⟨"cp", JSNumber.int 0⟩, "e2e4", none⟩ : EngineResult) ≠
      fallbackResult := by
  decide

/-- C4 amended: while no setup attempt has succeeded, every `analyze`
call resolves — never rejects — to the fallback result
`\x7beval: \x7bcp, 0\x7d, bestMove: "0000"\x7d` and nothing is ever transmitted to
an engine; however setup is re-attempted by each subsequent request (it is
not attempted at most once per session lifetime), so only requests whose
own setup attempt fails degrade to the fallback. -/
theorem setup_failure_fallback (evs : List Ev)
    (h : Ev.setupResult true ∉ evs) :
    (∀ k r, TraceEv.resolve k r ∈ runTrace evs → r = fallbackResult) ∧
    (∀ w c, TraceEv.send w c ∉ runTrace evs) := by
  have hinv := runFrom_inv (fun e => e ≠ Ev.setupResult true)
    (fun st tr => st.engineUp = false ∧
      (∀ k r, TraceEv.resolve k r ∈ tr → r = fallbackResult) ∧
      (∀ w c, TraceEv.send w c ∉ tr))
    ?_ evs (fun e he => fun hee => h (hee ▸ he)) initState [] ⟨rfl, ?_, ?_⟩
  · obtain ⟨h1, h2, h3⟩ := hinv
    constructor
    · intro k r hr
      exact h2 k r (by simpa [runTrace] using hr)
    · intro w c hc
      exact h3 w c (by simpa [runTrace] using hc)
  · intro st tr e hpred hP
    obtain ⟨h1, h2, h3⟩ := hP
    cases e with
    | submit r =>
      cases hc : st.current with
      | some t =>
        refine ⟨by simpa [step, stepSubmit, hc] using h1, ?_, ?_⟩
        · intro k r2 hr
          simp only [step, stepSubmit, hc] at hr
          rcases List.mem_append.mp hr with hr | hr
          · exact h2 k r2 hr
          · simp at hr
        · intro w c hcmd
          simp only [step, stepSubmit, hc] at hcmd
          rcases List.mem_append.mp hcmd with hcmd | hcmd
          · exact h3 w c hcmd
          · simp at hcmd
      | none =>
        refine ⟨by simp [step, stepSubmit, hc, startTask, h1], ?_, ?_⟩
        · intro k r2 hr
          simp only [step, stepSubmit, hc, startTask, h1] at hr
          rcases List.mem_append.mp hr with hr | hr
          · exact h2 k r2 hr
          · simp at hr
        · intro w c hcmd
          simp only [step, stepSubmit, hc, startTask, h1] at hcmd
          rcases List.mem_append.mp hcmd with hcmd | hcmd
          · exact h3 w c hcmd
          · simp at hcmd
    | setupResult ok =>
      have hok : ok = false := by
        cases ok with
        | true => exact absurd rfl hpred
        | false => rfl
      subst hok
      cases hc : st.current with
      | none =>
        refine ⟨by simpa [step, stepSetup, hc] using h1, ?_, ?_⟩
        · intro k r2 hr
          simp only [step, stepSetup, hc] at hr
          rcases List.mem_append.mp hr with hr | hr
          · exact h2 k r2 hr
          · simp at hr
        · intro w c hcmd
          simp only [step, stepSetup, hc] at hcmd
          rcases List.mem_append.mp hcmd with hcmd | hcmd
          · exact h3 w c hcmd
          · simp at hcmd
      | some t =>
        obtain ⟨i, rq, stg⟩ := t
        cases stg with
        | awaitingSetup =>
          cases hp : st.pending with
          | nil =>
            refine ⟨by simp [step, stepSetup, hc, popNext, hp, h1], ?_, ?_⟩
            · intro k r2 hr
              simp only [step, stepSetup, hc, popNext, hp] at hr
              rcases List.mem_append.mp hr with hr | hr
              · exact h2 k r2 hr
              · simp at hr
                exact hr.2
            · intro w c hcmd
              simp only [step, stepSetup, hc, popNext, hp] at hcmd
              rcases List.mem_append.mp hcmd with hcmd | hcmd
              · exact h3 w c hcmd
              · simp at hcmd
          | cons pr rest =>
            refine ⟨by simp [step, stepSetup, hc, popNext, hp, startTask, h1],
              ?_, ?_⟩
            · intro k r2 hr
              simp only [step, stepSetup, hc, popNext, hp, startTask, h1] at hr
              rcases List.mem_append.mp hr with hr | hr
              · exact h2 k r2 hr
              · simp at hr
                exact hr.2
            · intro w c hcmd
              simp only [step, stepSetup, hc, popNext, hp, startTask, h1]
                at hcmd
              rcases List.mem_append.mp hcmd with hcmd | hcmd
              · exact h3 w c hcmd
              · simp at hcmd
        | awaitingReady =>
          refine ⟨by simpa [step, stepSetup, hc] using h1, ?_, ?_⟩
          · intro k r2 hr
            simp only [step, stepSetup, hc] at hr
            rcases List.mem_append.mp hr with hr | hr
            · exact h2 k r2 hr
            · simp at hr
          · intro w c hcmd
            simp only [step, stepSetup, hc] at hcmd
            rcases List.mem_append.mp hcmd with hcmd | hcmd
            · exact h3 w c hcmd
            · simp at hcmd
        | listening acc =>
          refine ⟨by simpa [step, stepSetup, hc] using h1, ?_, ?_⟩
          · intro k r2 hr
            simp only [step, stepSetup, hc] at hr
            rcases List.mem_append.mp hr with hr | hr
            · exact h2 k r2 hr
            · simp at hr
          · intro w c hcmd
            simp only [step, stepSetup, hc] at hcmd
            rcases List.mem_append.mp hcmd with hcmd | hcmd
            · exact h3 w c hcmd
            · simp at hcmd
    | recv line =>
      have hstep : step st (Ev.recv line) = (st, []) := by
        simp [step, stepRecv, h1]
      rw [hstep]
      exact ⟨h1, fun k r2 hr => h2 k r2 (by simpa using hr),
        fun w c hc => h3 w c (by simpa using hc)⟩
  · intro k r hr
    simp at hr
  · intro w c hc
    simp at hc

/-- C4 amended, witness: after one submit and one failed setup, nothing
was ever transmitted. -/
theorem setup_failure_fallback_witness :
    TraceEv.send none "uci" ∉
      runTrace [.submit ⟨"f0", 14⟩, .setupResult false] :=
  (setup_failure_fallback [.submit ⟨"f0", 14⟩, .setupResult false]
    (by decide)).2 none "uci"

/-! ## C5: a session whose engine never acknowledges -/

/-- C5 (behaviour of the code at the failing input): when the engine
process is established but no inbound line ever contains the
acknowledgment substring `uciok`, no `analyze` call ever resolves — the
head request stays suspended at `await readyRef.current` forever, and
every queued request behind it stays pending too.  (The claim says every
call still eventually resolves to the fallback; the code has no bounded
wait, so the promise simply never settles.) -/
theorem no_uciok_never_resolves (evs : List Ev)
    (h : ∀ line, Ev.recv line ∈ evs → containsSub line "uciok" = false) :
    ∀ k r, TraceEv.resolve k r ∉
      runTrace ([.submit ⟨"startpos", 14⟩, .setupResult true] ++ evs) := by
  intro k r hmem
  have hpre : runFrom initState
      [Ev.submit ⟨"startpos", 14⟩, Ev.setupResult true] =
      (⟨true, false, some ⟨0, ⟨"startpos", 14⟩, .awaitingReady⟩, [], 1⟩,
        [.submit 0 ⟨"startpos", 14⟩, .send none "uci"]) := rfl
  have hinv := runFrom_inv
    (fun e => ∀ line, e = Ev.recv line → containsSub line "uciok" = false)
    (fun st tr => st.ready = false ∧
      (∃ i rq, st.current = some ⟨i, rq, .awaitingReady⟩) ∧
      (∀ k2 r2, TraceEv.resolve k2 r2 ∉ tr))
    ?_ evs (fun e he line heq => h line (heq ▸ he))
    ⟨true, false, some ⟨0, ⟨"startpos", 14⟩, .awaitingReady⟩, [], 1⟩
    [.submit 0 ⟨"startpos", 14⟩, .send none "uci"]
    ⟨rfl, ⟨0, ⟨"startpos", 14⟩, rfl⟩, by intro k2 r2 hx; simp at hx⟩
  · obtain ⟨h1, h2, h3⟩ := hinv
    rw [runTrace, runFrom_append, hpre] at hmem
    exact h3 k r hmem
  · intro st tr e hpred hP
    obtain ⟨h1, ⟨i, rq, hcur⟩, h3⟩ := hP
    cases e with
    | submit r2 =>
      have hs1 : (step st (Ev.submit r2)).1.ready = st.ready := by
        simp [step, stepSubmit, hcur]
      have hs2 : (step st (Ev.submit r2)).1.current = st.current := by
        simp [step, stepSubmit, hcur]
      have hs3 : (step st (Ev.submit r2)).2 = [.submit st.nextIdx r2] := by
        simp [step, stepSubmit, hcur]
      refine ⟨by rw [hs1]; exact h1, ⟨i, rq, by rw [hs2]; exact hcur⟩, ?_⟩
      intro k2 r3 hx
      rw [hs3] at hx
      rcases List.mem_append.mp hx with hx | hx
      · exact h3 k2 r3 hx
      · simp at hx
    | setupResult ok =>
      have hstep : step st (Ev.setupResult ok) = (st, []) := by
        simp [step, stepSetup, hcur]
      rw [hstep]
      exact ⟨h1, ⟨i, rq, hcur⟩,
        fun k2 r3 hx => h3 k2 r3 (by simpa using hx)⟩
    | recv line =>
      cases heu : st.engineUp with
      | false =>
        have hstep : step st (Ev.recv line) = (st, []) := by
          simp [step, stepRecv, heu]
        rw [hstep]
        exact ⟨h1, ⟨i, rq, hcur⟩,
          fun k2 r3 hx => h3 k2 r3 (by simpa using hx)⟩
      | true =>
        have hcont := hpred line rfl
        have hstep : step st (Ev.recv line) = (st, [.recvLine line]) := by
          simp [step, stepRecv, heu, h1, hcont]
        rw [hstep]
        refine ⟨h1, ⟨i, rq, hcur⟩, ?_⟩
        intro k2 r3 hx
        rcases List.mem_append.mp hx with hx | hx
        · exact h3 k2 r3 hx
        · simp at hx

/-- C5 witness: concrete session — setup succeeds, a non-acknowledgment
line arrives, a second request is queued; nothing ever resolves. -/
theorem no_uciok_never_resolves_witness :
    TraceEv.resolve 0 fallbackResult ∉
      runTrace ([.submit ⟨"startpos", 14⟩, .setupResult true] ++
        [.recv "info string hello", .submit ⟨"other", 10⟩]) :=
  no_uciok_never_resolves [.recv "info string hello", .submit ⟨"other", 10⟩]
    (by
      intro line hl
      simp at hl
      subst hl
      decide) 0 fallbackResult

/-! ## C2: the startup handshake precedes all per-request commands -/

theorem get?_append_len {α : Type} (a b : List α) :
    (a ++ b).get? a.length = b.get? 0 := by
  have h := get?_append_off a b 0
  simpa using h

theorem get?_append_len1 {α : Type} (a b : List α) :
    (a ++ b).get? (a.length + 1) = b.get? 1 :=
  get?_append_off a b 1

theorem UOK_append (tr ch : List TraceEv) (h : UOK tr) : UOK (tr ++ ch) := by
  obtain ⟨a, b, hab, ha, ⟨line, hb, hbu⟩, hc, hbefore⟩ := h
  refine ⟨a, b, hab, get?_append_l ch ha, ⟨line, get?_append_l ch hb, hbu⟩,
    get?_append_l ch hc, ?_⟩
  intro p w c hp hpb
  have hblen : b < tr.length := get?_some_lt hb
  have hplen : p < tr.length := by omega
  rw [List.get?_append hplen] at hp
  exact hbefore p w c hp hpb

theorem UOK_build (tr ch : List TraceEv) (line : String) (a : Nat)
    (ha : tr.get? a = some (.send none "uci"))
    (hu : ∀ p w c, tr.get? p = some (.send w c) → p = a ∧ w = none ∧ c = "uci")
    (hct : containsSub line "uciok" = true)
    (h0 : ch.get? 0 = some (.recvLine line))
    (h1 : ch.get? 1 = some (.send none "isready")) :
    UOK (tr ++ ch) := by
  refine ⟨a, tr.length, get?_some_lt ha, get?_append_l _ ha,
    ⟨line, ?_, hct⟩, ?_, ?_⟩
  · rw [get?_append_len]
    exact h0
  · rw [get?_append_len1]
    exact h1
  · intro p w c hp hpb
    rw [List.get?_append hpb] at hp
    exact (hu p w c hp).1

theorem hsInv_extend_quiet (st : SessState) (tr ch : List TraceEv)
    (hP : HsInv st tr)
    (hs : ∀ w c, TraceEv.send w c ∉ ch)
    (hr : ∀ l, TraceEv.recvLine l ∉ ch) :
    HsInv st (tr ++ ch) := by
  obtain ⟨hA, hB, hC, hD, hE⟩ := hP
  refine ⟨?_, ?_, fun h => UOK_append _ _ (hC h), ?_, hE⟩
  · intro he
    obtain ⟨h1, h2, h3⟩ := hA he
    exact ⟨h1, fun w c hm => (List.mem_append.mp hm).elim (h2 w c) (hs w c),
      fun l hm => (List.mem_append.mp hm).elim (h3 l) (hr l)⟩
  · intro he hrd
    obtain ⟨⟨a, ha, hu⟩, hrl⟩ := hB he hrd
    refine ⟨⟨a, get?_append_l _ ha, ?_⟩, ?_⟩
    · intro p w c hp
      rcases get?_append_split hp with ⟨_, hp2⟩ | ⟨j, rfl, hp2⟩
      · exact hu p w c hp2
      · exact absurd (mem_of_get? hp2) (hs w c)
    · intro l hm
      exact (List.mem_append.mp hm).elim (hrl l) fun h => absurd h (hr l)
  · intro p k cmd hp
    rcases get?_append_split hp with ⟨_, hp2⟩ | ⟨j, rfl, hp2⟩
    · exact hD p k cmd hp2
    · exact absurd (mem_of_get? hp2) (hs (some k) cmd)

theorem hsInv_extend_recv (st : SessState) (tr : List TraceEv) (l : String)
    (hP : HsInv st tr) (hup : st.engineUp = true)
    (hl : st.ready = true ∨ containsSub l "uciok" = false) :
    HsInv st (tr ++ [.recvLine l]) := by
  obtain ⟨hA, hB, hC, hD, hE⟩ := hP
  refine ⟨?_, ?_, fun h => UOK_append _ _ (hC h), ?_, hE⟩
  · intro he
    rw [hup] at he
    exact absurd he (by decide)
  · intro he hrd
    obtain ⟨⟨a, ha, hu⟩, hrl⟩ := hB he hrd
    refine ⟨⟨a, get?_append_l _ ha, ?_⟩, ?_⟩
    · intro p w c hp
      rcases get?_append_split hp with ⟨_, hp2⟩ | ⟨j, rfl, hp2⟩
      · exact hu p w c hp2
      · have := mem_of_get? hp2
        simp at this
    · intro l2 hm
      rcases List.mem_append.mp hm with hm | hm
      · exact hrl l2 hm
      · simp at hm
        subst hm
        rcases hl with hl | hl
        · rw [hrd] at hl
          exact absurd hl (by decide)
        · exact hl
  · intro p k cmd hp
    rcases get?_append_split hp with ⟨_, hp2⟩ | ⟨j, rfl, hp2⟩
    · exact hD p k cmd hp2
    · have := mem_of_get? hp2
      simp at this

theorem hsInv_extend_ready (st : SessState) (tr ch : List TraceEv)
    (hP : HsInv st tr) (hrd : st.ready = true) :
    HsInv st (tr ++ ch) := by
  obtain ⟨hA, hB, hC, hD, hE⟩ := hP
  refine ⟨?_, ?_, fun h => UOK_append _ _ (hC h), fun _ _ _ _ => hrd, hE⟩
  · intro he
    have h1 := (hA he).1
    rw [hrd] at h1
    exact absurd h1 (by decide)
  · intro _ he
    rw [hrd] at he
    exact absurd he (by decide)

theorem hsInv_state_fields (st st2 : SessState) (tr : List TraceEv)
    (hP : HsInv st tr)
    (h1 : st2.engineUp = st.engineUp) (h2 : st2.ready = st.ready)
    (h3 : ∀ i rq, st2.current = some ⟨i, rq, .awaitingSetup⟩ →
      st.engineUp = false) :
    HsInv st2 tr := by
  obtain ⟨hA, hB, hC, hD, hE⟩ := hP
  refine ⟨?_, ?_, ?_, ?_, ?_⟩
  · intro he
    rw [h1] at he
    obtain ⟨hx, hy, hz⟩ := hA he
    exact ⟨by rw [h2]; exact hx, hy, hz⟩
  · intro he hrd
    rw [h1] at he
    rw [h2] at hrd
    exact hB he hrd
  · intro hrd
    rw [h2] at hrd
    exact hC hrd
  · intro p k cmd hp
    rw [h2]
    exact hD p k cmd hp
  · intro i rq hc
    rw [h1]
    exact h3 i rq hc

theorem hsInv_step (st : SessState) (tr : List TraceEv) (e : Ev)
    (hP : HsInv st tr) : HsInv (step st e).1 (tr ++ (step st e).2) := by
  cases e with
  | submit r =>
    cases hc : st.current with
    | some t =>
      have hstep : step st (Ev.submit r) =
          ({ st with
              pending := st.pending ++ [(st.nextIdx, r)],
              nextIdx := st.nextIdx + 1 },
            [.submit st.nextIdx r]) := by
        simp [step, stepSubmit, hc]
      rw [hstep]
      refine hsInv_state_fields st _ _
        (hsInv_extend_quiet st tr _ hP ?_ ?_) rfl rfl ?_
      · intro w c hm
        simp at hm
      · intro l hm
        simp at hm
      · intro i rq hcc
        exact hP.2.2.2.2 i rq hcc
    | none =>
      cases heu : st.engineUp with
      | false =>
        have hstep : step st (Ev.submit r) =
            ({ st with
                current := some ⟨st.nextIdx, r, .awaitingSetup⟩,
                nextIdx := st.nextIdx + 1 },
              [.submit st.nextIdx r]) := by
          simp [step, stepSubmit, hc, startTask, heu]
        rw [hstep]
        refine hsInv_state_fields st _ _
          (hsInv_extend_quiet st tr _ hP ?_ ?_) rfl rfl ?_
        · intro w c hm
          simp at hm
        · intro l hm
          simp at hm
        · intro i rq hcc
          exact heu
      | true =>
        cases hrd : st.ready with
        | false =>
          have hstep : step st (Ev.submit r) =
              ({ st with
                  current := some ⟨st.nextIdx, r, .awaitingReady⟩,
                  nextIdx := st.nextIdx + 1 },
                [.submit st.nextIdx r]) := by
            simp [step, stepSubmit, hc, startTask, heu, hrd]
          rw [hstep]
          refine hsInv_state_fields st _ _
            (hsInv_extend_quiet st tr _ hP ?_ ?_) rfl rfl ?_
          · intro w c hm
            simp at hm
          · intro l hm
            simp at hm
          · intro i rq hcc
            simp at hcc
        | true =>
          have hstep : step st (Ev.submit r) =
              ({ st with
                  current := some ⟨st.nextIdx, r, .listening initAcc⟩,
                  nextIdx := st.nextIdx + 1 },
                [.submit st.nextIdx r, .send (some st.nextIdx) "ucinewgame",
                 .send (some st.nextIdx) ("position fen " ++ r.fen),
                 .send (some st.nextIdx) ("go depth " ++ toString r.depth)]) := by
            simp [step, stepSubmit, hc, startTask, heu, hrd, reqCmds]
          rw [hstep]
          refine hsInv_state_fields st _ _
            (hsInv_extend_ready st tr _ hP hrd) rfl rfl ?_
          intro i rq hcc
          simp at hcc
  | setupResult ok =>
    cases hc : st.current with
    | none =>
      have hstep : step st (Ev.setupResult ok) = (st, []) := by
        simp [step, stepSetup, hc]
      rw [hstep, List.append_nil]
      exact hP
    | some t =>
      obtain ⟨i, rq, stg⟩ := t
      cases stg with
      | awaitingReady =>
        have hstep : step st (Ev.setupResult ok) = (st, []) := by
          simp [step, stepSetup, hc]
        rw [hstep, List.append_nil]
        exact hP
      | listening acc =>
        have hstep : step st (Ev.setupResult ok) = (st, []) := by
          simp [step, stepSetup, hc]
        rw [hstep, List.append_nil]
        exact hP
      | awaitingSetup =>
        have heu : st.engineUp = false := hP.2.2.2.2 i rq hc
        have hrd : st.ready = false := (hP.1 heu).1
        have hnos : ∀ w c, TraceEv.send w c ∉ tr := (hP.1 heu).2.1
        have hnor : ∀ l, TraceEv.recvLine l ∉ tr := (hP.1 heu).2.2
        cases ok with
        | true =>
          have hstep : step st (Ev.setupResult true) =
              ({ st with
                  engineUp := true,
                  current := some ⟨i, rq, .awaitingReady⟩ },
                [.send none "uci"]) := by
            simp [step, stepSetup, hc]
          rw [hstep]
          refine ⟨?_, ?_, ?_, ?_, ?_⟩
          · intro he
            have he2 : (true : Bool) = false := he
            exact absurd he2 (by decide)
          · intro _ _
            constructor
            · refine ⟨tr.length, ?_, ?_⟩
              · rw [get?_append_len]
                rfl
              · intro p w c hp
                rcases get?_append_split hp with ⟨_, hp2⟩ | ⟨j, rfl, hp2⟩
                · exact absurd (mem_of_get? hp2) (hnos w c)
                · have hj : j = 0 := by
                    have := get?_some_lt hp2
                    simpa using this
                  subst hj
                  have hj2 := hp2
                  simp at hj2
                  exact ⟨by omega, hj2.1.symm, hj2.2.symm⟩
            · intro l hm
              rcases List.mem_append.mp hm with hm | hm
              · exact absurd hm (hnor l)
              · simp at hm
          · intro hrd2
            have h2 : st.ready = true := hrd2
            rw [hrd] at h2
            exact absurd h2 (by decide)
          · intro p k cmd hp
            rcases get?_append_split hp with ⟨_, hp2⟩ | ⟨j, rfl, hp2⟩
            · exact absurd (mem_of_get? hp2) (hnos (some k) cmd)
            · have := mem_of_get? hp2
              simp at this
          · intro i2 rq2 hc2
            have hc3 : some (⟨i, rq, .awaitingReady⟩ : Task) =
                some ⟨i2, rq2, .awaitingSetup⟩ := hc2
            simp at hc3
        | false =>
          cases hpend : st.pending with
          | nil =>
            have hstep : step st (Ev.setupResult false) =
                ({ st with current := none }, [.resolve i fallbackResult]) := by
              simp [step, stepSetup, hc, popNext, hpend]
            rw [hstep]
            refine hsInv_state_fields st _ _
              (hsInv_extend_quiet st tr _ hP ?_ ?_) rfl rfl ?_
            · intro w c hm
              simp at hm
            · intro l hm
              simp at hm
            · intro i2 rq2 hc2
              simp at hc2
          | cons pr rest =>
            obtain ⟨j2, rq2⟩ := pr
            have hstep : step st (Ev.setupResult false) =
                ({ st with
                    current := some ⟨j2, rq2, .awaitingSetup⟩,
                    pending := rest },
                  [.resolve i fallbackResult]) := by
              simp [step, stepSetup, hc, popNext, hpend, startTask, heu]
            rw [hstep]
            refine hsInv_state_fields st _ _
              (hsInv_extend_quiet st tr _ hP ?_ ?_) rfl rfl ?_
            · intro w c hm
              simp at hm
            · intro l hm
              simp at hm
            · intro i3 rq3 hc3
              exact heu
  | recv line =>
    cases heu : st.engineUp with
    | false =>
      have hstep : step st (Ev.recv line) = (st, []) := by
        simp [step, stepRecv, heu]
      rw [hstep, List.append_nil]
      exact hP
    | true =>
      cases hrd : st.ready with
      | true =>
        cases hc : st.current with
        | none =>
          have hstep : step st (Ev.recv line) = (st, [.recvLine line]) := by
            simp [step, stepRecv, heu, hrd, hc]
          rw [hstep]
          exact hsInv_extend_ready st tr _ hP hrd
        | some t =>
          obtain ⟨i, rq, stg⟩ := t
          cases stg with
          | awaitingSetup =>
            have hfalse := hP.2.2.2.2 i rq hc
            rw [heu] at hfalse
            exact absurd hfalse (by decide)
          | awaitingReady =>
            have hstep : step st (Ev.recv line) = (st, [.recvLine line]) := by
              simp [step, stepRecv, heu, hrd, hc]
            rw [hstep]
            exact hsInv_extend_ready st tr _ hP hrd
          | listening acc =>
            cases hbm : strStartsWith line "bestmove " with
            | false =>
              have hstep := stepRecv_listening st i rq acc line heu hrd hc hbm
              have hstep1 : (step st (Ev.recv line)).1 =
                  { st with current := some ⟨i, rq, .listening
                      (match (if strStartsWith line "info " = true then
                          parseInfoLine line else none) with
                       | some p => ⟨p.eval, p.pv⟩
                       | none => acc)⟩ } := by
                rw [step, hstep]
              refine hsInv_state_fields st _ _
                (hsInv_extend_ready st tr _ hP hrd) ?_ ?_ ?_
              · rw [hstep1]
              · rw [hstep1]
              · intro i2 rq2 hc2
                rw [hstep1] at hc2
                simp at hc2
            | true =>
              have hbest := stepRecv_bestmove st i rq acc line heu hrd hc hbm
              cases hpend : st.pending with
              | nil =>
                have hpop : popNext { st with current := none } =
                    ({ st with current := none }, []) := by
                  simp [popNext, hpend]
                have hstep1 : (step st (Ev.recv line)).1 =
                    { st with current := none } := by
                  rw [step, hbest.2, hpop]
                refine hsInv_state_fields st _ _
                  (hsInv_extend_ready st tr _ hP hrd) ?_ ?_ ?_
                · rw [hstep1]
                · rw [hstep1]
                · intro i2 rq2 hc2
                  rw [hstep1] at hc2
                  simp at hc2
              | cons pr rest =>
                obtain ⟨j2, rq2⟩ := pr
                have hpop : (popNext { st with current := none }).1 =
                    { st with
                        current := some ⟨j2, rq2, .listening initAcc⟩,
                        pending := rest } := by
                  simp [popNext, hpend, startTask, heu, hrd]
                have hstep1 : (step st (Ev.recv line)).1 =
                    { st with
                        current := some ⟨j2, rq2, .listening initAcc⟩,
                        pending := rest } := by
                  rw [step, hbest.2, hpop]
                refine hsInv_state_fields st _ _
                  (hsInv_extend_ready st tr _ hP hrd) ?_ ?_ ?_
                · rw [hstep1]
                · rw [hstep1]
                · intro i2 rq2 hc2
                  rw [hstep1] at hc2
                  simp at hc2
      | false =>
        cases hct : containsSub line "uciok" with
        | false =>
          have hstep : step st (Ev.recv line) = (st, [.recvLine line]) := by
            simp [step, stepRecv, heu, hrd, hct]
          rw [hstep]
          exact hsInv_extend_recv st tr line hP heu (Or.inr hct)
        | true =>
          obtain ⟨⟨a, ha, hu⟩, hrl⟩ := hP.2.1 heu hrd
          cases hc : st.current with
          | none =>
            have hstep : step st (Ev.recv line) =
                ({ st with ready := true },
                  [.recvLine line, .send none "isready"]) := by
              simp [step, stepRecv, heu, hrd, hct, hc]
            rw [hstep]
            refine ⟨?_, ?_, ?_, fun _ _ _ _ => rfl, ?_⟩
            · intro he
              have he2 : st.engineUp = false := he
              rw [heu] at he2
              exact absurd he2 (by decide)
            · intro _ hrd2
              have h2 : (true : Bool) = false := hrd2
              exact absurd h2 (by decide)
            · intro _
              exact UOK_build tr _ line a ha hu hct rfl rfl
            · intro i2 rq2 hc2
              have hc3 : st.current = some ⟨i2, rq2, .awaitingSetup⟩ := hc2
              rw [hc] at hc3
              simp at hc3
          | some t =>
            obtain ⟨i, rq, stg⟩ := t
            cases stg with
            | awaitingSetup =>
              have hfalse := hP.2.2.2.2 i rq hc
              rw [heu] at hfalse
              exact absurd hfalse (by decide)
            | listening acc =>
              have hstep : step st (Ev.recv line) =
                  ({ st with ready := true },
                    [.recvLine line, .send none "isready"]) := by
                simp [step, stepRecv, heu, hrd, hct, hc]
              rw [hstep]
              refine ⟨?_, ?_, ?_, fun _ _ _ _ => rfl, ?_⟩
              · intro he
                have he2 : st.engineUp = false := he
                rw [heu] at he2
                exact absurd he2 (by decide)
              · intro _ hrd2
                have h2 : (true : Bool) = false := hrd2
                exact absurd h2 (by decide)
              · intro _
                exact UOK_build tr _ line a ha hu hct rfl rfl
              · intro i2 rq2 hc2
                have hc3 : st.current = some ⟨i2, rq2, .awaitingSetup⟩ := hc2
                rw [hc] at hc3
                simp at hc3
            | awaitingReady =>
              have hstep : step st (Ev.recv line) =
                  ({ st with
                      ready := true,
                      current := some ⟨i, rq, .listening initAcc⟩ },
                    [.recvLine line, .send none "isready",
                     .send (some i) "ucinewgame",
                     .send (some i) ("position fen " ++ rq.fen),
                     .send (some i) ("go depth " ++ toString rq.depth)]) := by
                simp [step, stepRecv, heu, hrd, hct, hc, reqCmds]
              rw [hstep]
              refine ⟨?_, ?_, ?_, fun _ _ _ _ => rfl, ?_⟩
              · intro he
                have he2 : st.engineUp = false := he
                rw [heu] at he2
                exact absurd he2 (by decide)
              · intro _ hrd2
                have h2 : (true : Bool) = false := hrd2
                exact absurd h2 (by decide)
              · intro _
                exact UOK_build tr _ line a ha hu hct rfl rfl
              · intro i2 rq2 hc2
                have hc3 : some (⟨i, rq, .listening initAcc⟩ : Task) =
                    some ⟨i2, rq2, .awaitingSetup⟩ := hc2
                simp at hc3

theorem hsInv_init : HsInv initState [] := by
  refine ⟨?_, ?_, ?_, ?_, ?_⟩
  · intro _
    refine ⟨rfl, ?_, ?_⟩
    · intro w c hm
      simp at hm
    · intro l hm
      simp at hm
  · intro he _
    exact absurd he (by decide)
  · intro hr
    exact absurd hr (by decide)
  · intro p k cmd hp
    rw [List.get?_eq_none.mpr (by simp)] at hp
    cases hp
  · intro i rq hc
    cases hc

/-- C2: every per-request command (here tagged with the request it belongs
to) is transmitted only after the full startup handshake: the `uci`
identification command is the only thing sent until a line containing
`uciok` is received, the `isready` ready-check is sent immediately after
that acknowledgment, and only then do queued analyze requests execute. -/
theorem handshake_before_commands (evs : List Ev) :
    ∀ i k cmd, (runTrace evs).get? i = some (.send (some k) cmd) →
      ∃ a b, a < b ∧ b + 1 < i ∧
        (runTrace evs).get? a = some (.send none "uci") ∧
        (∃ line, (runTrace evs).get? b = some (.recvLine line) ∧
          containsSub line "uciok" = true) ∧
        (runTrace evs).get? (b + 1) = some (.send none "isready") ∧
        (∀ p w c, (runTrace evs).get? p = some (.send w c) → p < b →
          p = a) := by
  intro i k cmd hi
  simp only [runTrace] at hi ⊢
  have hinv := runFrom_inv (fun _ => True) HsInv
    (fun st tr e _ hP => hsInv_step st tr e hP) evs (fun _ _ => trivial)
    initState [] hsInv_init
  rw [List.nil_append] at hinv
  have hready : (runFrom initState evs).1.ready = true :=
    hinv.2.2.2.1 i k cmd hi
  obtain ⟨a, b, hab, ha, ⟨line, hb, hbu⟩, hc, hbef⟩ := hinv.2.2.1 hready
  have hia : i ≠ a := by
    intro h
    subst h
    rw [ha] at hi
    simp at hi
  have hib : i ≠ b := by
    intro h
    subst h
    rw [hb] at hi
    cases hi
  have hib1 : i ≠ b + 1 := by
    intro h
    subst h
    rw [hc] at hi
    simp at hi
  have hige : ¬ i < b := fun hlt => hia (hbef i (some k) cmd hi hlt)
  exact ⟨a, b, hab, by omega, ha, ⟨line, hb, hbu⟩, hc, hbef⟩

/-- C2 witness: in the session [analyze, fetch-ok, uciok, bestmove] the
first per-request command (`ucinewgame`, transcript position 4) is
preceded by `uci` (position 1), the `uciok` acknowledgment (position 2)
and `isready` (position 3). -/
theorem handshake_before_commands_witness :
    ∃ a b, a < b ∧ b + 1 < 4 ∧
      (runTrace [.submit ⟨"f0", 14⟩, .setupResult true, .recv "uciok",
        .recv "bestmove e2e4"]).get? a = some (.send none "uci") ∧
      (∃ line, (runTrace [.submit ⟨"f0", 14⟩, .setupResult true,
          .recv "uciok", .recv "bestmove e2e4"]).get? b =
            some (.recvLine line) ∧
        containsSub line "uciok" = true) ∧
      (runTrace [.submit ⟨"f0", 14⟩, .setupResult true, .recv "uciok",
        .recv "bestmove e2e4"]).get? (b + 1) =
          some (.send none "isready") ∧
      (∀ p w c, (runTrace [.submit ⟨"f0", 14⟩, .setupResult true,
          .recv "uciok", .recv "bestmove e2e4"]).get? p =
            some (.send w c) → p < b → p = a) :=
  handshake_before_commands
    [.submit ⟨"f0", 14⟩, .setupResult true, .recv "uciok",
      .recv "bestmove e2e4"] 4 0 "ucinewgame" (by decide)

/-! ## C1: serialization of analyze requests -/

theorem range'_snoc (s n : Nat) :
    List.range' s n ++ [s + n] = List.range' s (n + 1) := by
  induction n generalizing s with
  | zero => simp
  | succ n ih =>
    rw [List.range'_succ, List.range'_succ]
    rw [List.cons_append]
    have harith : s + (n + 1) = (s + 1) + n := by omega
    rw [harith, ih (s + 1)]

theorem OrdInv_append_quiet (tr ch : List TraceEv)
    (h : resolveIdxs ch = []) (ho : OrdInv tr) :
    OrdInv (tr ++ ch) ∧ rcOf (tr ++ ch) = rcOf tr := by
  have h1 : resolveIdxs (tr ++ ch) = resolveIdxs tr := by
    rw [resolveIdxs_append, h, List.append_nil]
  constructor
  · rw [OrdInv, h1, rcOf, h1]
    exact ho
  · rw [rcOf, h1]
    rfl

theorem OrdInv_append_res (tr ch : List TraceEv)
    (hc : resolveIdxs ch = [rcOf tr]) (ho : OrdInv tr) :
    OrdInv (tr ++ ch) ∧ rcOf (tr ++ ch) = rcOf tr + 1 := by
  have h1 : resolveIdxs (tr ++ ch) = resolveIdxs tr ++ [rcOf tr] := by
    rw [resolveIdxs_append, hc]
  have h2 : rcOf (tr ++ ch) = rcOf tr + 1 := by
    rw [rcOf, h1]
    simp [rcOf]
  constructor
  · rw [OrdInv, h1, h2, ho, List.range_succ]
  · exact h2

theorem SAR0_append (tr ch : List TraceEv) (h : SAR0 tr)
    (hch : ∀ j k cmd, ch.get? j = some (.send (some (k + 1)) cmd) →
      (∃ r, TraceEv.resolve k r ∈ tr) ∨
        (∃ m, m < j ∧ ∃ r, ch.get? m = some (.resolve k r))) :
    SAR0 (tr ++ ch) := by
  intro i k cmd hp
  rcases get?_append_split hp with ⟨_, hp2⟩ | ⟨j, rfl, hp2⟩
  · obtain ⟨m, hm, r, hr⟩ := h i k cmd hp2
    exact ⟨m, hm, r, get?_append_l _ hr⟩
  · rcases hch j k cmd hp2 with ⟨r, hr⟩ | ⟨m, hmj, r, hr⟩
    · obtain ⟨m, hmlen, hm⟩ := get?_of_mem' hr
      exact ⟨m, by omega, r, get?_append_l _ hm⟩
    · refine ⟨tr.length + m, by omega, r, ?_⟩
      rw [get?_append_off]
      exact hr

theorem SAR0_append_quiet (tr ch : List TraceEv) (h : SAR0 tr)
    (hq : ∀ k cmd, TraceEv.send (some k) cmd ∉ ch) : SAR0 (tr ++ ch) := by
  apply SAR0_append tr ch h
  intro j k cmd hj
  exact absurd (mem_of_get? hj) (hq (k + 1) cmd)

theorem SAR0_append_sends (tr ch : List TraceEv) (h : SAR0 tr)
    (ho : OrdInv tr)
    (hn : ∀ j k cmd, ch.get? j = some (.send (some k) cmd) → k = rcOf tr) :
    SAR0 (tr ++ ch) := by
  apply SAR0_append tr ch h
  intro j k cmd hj
  left
  have hk := hn j (k + 1) cmd hj
  have hkmem : k ∈ resolveIdxs tr := by
    rw [ho]
    exact List.mem_range.mpr (by omega)
  exact mem_resolveIdxs.mp hkmem

theorem ADJ_append (tr ch : List TraceEv) (h : ADJ tr)
    (hch : ∀ j k r, ch.get? j = some (.resolve k r) →
      ∃ j0 line, j = j0 + 1 ∧ ch.get? j0 = some (.recvLine line) ∧
        strStartsWith line "bestmove " = true) :
    ADJ (tr ++ ch) := by
  intro j k r hp
  rcases get?_append_split hp with ⟨_, hp2⟩ | ⟨j2, rfl, hp2⟩
  · obtain ⟨j0, line, hj, h0, hl⟩ := h j k r hp2
    exact ⟨j0, line, hj, get?_append_l _ h0, hl⟩
  · obtain ⟨j0, line, hj, h0, hl⟩ := hch j2 k r hp2
    refine ⟨tr.length + j0, line, by omega, ?_, hl⟩
    rw [get?_append_off]
    exact h0

theorem ADJ_append_quiet (tr ch : List TraceEv) (h : ADJ tr)
    (hq : ∀ k r, TraceEv.resolve k r ∉ ch) : ADJ (tr ++ ch) := by
  apply ADJ_append tr ch h
  intro j k r hj
  exact absurd (mem_of_get? hj) (hq k r)

theorem c1Inv_step (st : SessState) (tr : List TraceEv) (e : Ev)
    (hpred : e ≠ Ev.setupResult false) (hP : C1Inv st tr) :
    C1Inv (step st e).1 (tr ++ (step st e).2) := by
  obtain ⟨hOrd, hIdx, hS, hA⟩ := hP
  cases e with
  | submit r =>
    cases hc : st.current with
    | some t =>
      simp only [IdxInv, hc] at hIdx
      obtain ⟨h1, h2, h3⟩ := hIdx
      have hstep : step st (Ev.submit r) =
          ({ st with
              pending := st.pending ++ [(st.nextIdx, r)],
              nextIdx := st.nextIdx + 1 },
            [.submit st.nextIdx r]) := by
        simp [step, stepSubmit, hc]
      rw [hstep]
      obtain ⟨ho2, hrc⟩ :=
        OrdInv_append_quiet tr [.submit st.nextIdx r]
          (by simp [resolveIdxs]) hOrd
      refine ⟨ho2, ?_,
        SAR0_append_quiet _ _ hS (by intro k cmd hm; simp at hm),
        ADJ_append_quiet _ _ hA (by intro k r2 hm; simp at hm)⟩
      simp only [IdxInv, hc, hrc]
      refine ⟨h1, ?_, ?_⟩
      · rw [List.map_append, h2, List.length_append]
        simp only [List.map_cons, List.map_nil, List.length_cons,
          List.length_nil]
        rw [h3]
        have harith : rcOf tr + 1 + st.pending.length =
            (rcOf tr + 1) + st.pending.length := rfl
        rw [harith, range'_snoc]
      · simp only [List.length_append, List.length_cons, List.length_nil]
        omega
    | none =>
      simp only [IdxInv, hc] at hIdx
      obtain ⟨h1, h2⟩ := hIdx
      obtain ⟨ho2, hrc⟩ :=
        OrdInv_append_quiet tr [.submit st.nextIdx r]
          (by simp [resolveIdxs]) hOrd
      cases heu : st.engineUp with
      | false =>
        have hstep : step st (Ev.submit r) =
            ({ st with
                current := some ⟨st.nextIdx, r, .awaitingSetup⟩,
                nextIdx := st.nextIdx + 1 },
              [.submit st.nextIdx r]) := by
          simp [step, stepSubmit, hc, startTask, heu]
        rw [hstep]
        refine ⟨ho2, ?_,
          SAR0_append_quiet _ _ hS (by intro k cmd hm; simp at hm),
          ADJ_append_quiet _ _ hA (by intro k r2 hm; simp at hm)⟩
        simp only [IdxInv, hrc]
        refine ⟨h2, ?_, ?_⟩
        · rw [h1]
          simp only [List.map_nil, List.length_nil, List.range'_zero]
        · rw [h1]
          simp only [List.length_nil]
          omega
      | true =>
        cases hrd : st.ready with
        | false =>
          have hstep : step st (Ev.submit r) =
              ({ st with
                  current := some ⟨st.nextIdx, r, .awaitingReady⟩,
                  nextIdx := st.nextIdx + 1 },
                [.submit st.nextIdx r]) := by
            simp [step, stepSubmit, hc, startTask, heu, hrd]
          rw [hstep]
          refine ⟨ho2, ?_,
            SAR0_append_quiet _ _ hS (by intro k cmd hm; simp at hm),
            ADJ_append_quiet _ _ hA (by intro k r2 hm; simp at hm)⟩
          simp only [IdxInv, hrc]
          refine ⟨h2, ?_, ?_⟩
          · rw [h1]
            simp only [List.map_nil, List.length_nil, List.range'_zero]
          · rw [h1]
            simp only [List.length_nil]
            omega
        | true =>
          have hstep : step st (Ev.submit r) =
              ({ st with
                  current := some ⟨st.nextIdx, r, .listening initAcc⟩,
                  nextIdx := st.nextIdx + 1 },
                [.submit st.nextIdx r,
                 .send (some st.nextIdx) "ucinewgame",
                 .send (some st.nextIdx) ("position fen " ++ r.fen),
                 .send (some st.nextIdx) ("go depth " ++ toString r.depth)]) := by
            simp [step, stepSubmit, hc, startTask, heu, hrd, reqCmds]
          rw [hstep]
          obtain ⟨ho3, hrc3⟩ :=
            OrdInv_append_quiet tr
              [.submit st.nextIdx r,
               .send (some st.nextIdx) "ucinewgame",
               .send (some st.nextIdx) ("position fen " ++ r.fen),
               .send (some st.nextIdx) ("go depth " ++ toString r.depth)]
              (by simp [resolveIdxs]) hOrd
          refine ⟨ho3, ?_, ?_,
            ADJ_append_quiet _ _ hA (by intro k r2 hm; simp at hm)⟩
          · simp only [IdxInv, hrc3]
            refine ⟨h2, ?_, ?_⟩
            · rw [h1]
              simp only [List.map_nil, List.length_nil, List.range'_zero]
            · rw [h1]
              simp only [List.length_nil]
              omega
          · apply SAR0_append_sends tr _ hS hOrd
            intro j k cmd hj
            have hm := mem_of_get? hj
            simp at hm
            rcases hm with ⟨hk, _⟩ | ⟨hk, _⟩ | ⟨hk, _⟩ <;>
              rw [hk, h2]
  | setupResult ok =>
    cases hc : st.current with
    | none =>
      have hstep : step st (Ev.setupResult ok) = (st, []) := by
        simp [step, stepSetup, hc]
      rw [hstep, List.append_nil]
      exact ⟨hOrd, hIdx, hS, hA⟩
    | some t =>
      obtain ⟨i, rq, stg⟩ := t
      cases stg with
      | awaitingReady =>
        have hstep : step st (Ev.setupResult ok) = (st, []) := by
          simp [step, stepSetup, hc]
        rw [hstep, List.append_nil]
        exact ⟨hOrd, hIdx, hS, hA⟩
      | listening acc =>
        have hstep : step st (Ev.setupResult ok) = (st, []) := by
          simp [step, stepSetup, hc]
        rw [hstep, List.append_nil]
        exact ⟨hOrd, hIdx, hS, hA⟩
      | awaitingSetup =>
        cases ok with
        | false => exact absurd rfl hpred
        | true =>
          simp only [IdxInv, hc] at hIdx
          obtain ⟨h1, h2, h3⟩ := hIdx
          have hstep : step st (Ev.setupResult true) =
              ({ st with
                  engineUp := true,
                  current := some ⟨i, rq, .awaitingReady⟩ },
                [.send none "uci"]) := by
            simp [step, stepSetup, hc]
          rw [hstep]
          obtain ⟨ho2, hrc⟩ :=
            OrdInv_append_quiet tr [.send none "uci"]
              (by simp [resolveIdxs]) hOrd
          refine ⟨ho2, ?_,
            SAR0_append_quiet _ _ hS (by intro k cmd hm; simp at hm),
            ADJ_append_quiet _ _ hA (by intro k r2 hm; simp at hm)⟩
          simp only [IdxInv, hrc]
          exact ⟨h1, h2, h3⟩
  | recv line =>
    cases heu : st.engineUp with
    | false =>
      have hstep : step st (Ev.recv line) = (st, []) := by
        simp [step, stepRecv, heu]
      rw [hstep, List.append_nil]
      exact ⟨hOrd, hIdx, hS, hA⟩
    | true =>
      cases hrd : st.ready with
      | false =>
        cases hct : containsSub line "uciok" with
        | false =>
          have hstep : step st (Ev.recv line) = (st, [.recvLine line]) := by
            simp [step, stepRecv, heu, hrd, hct]
          rw [hstep]
          obtain ⟨ho2, hrc⟩ :=
            OrdInv_append_quiet tr [.recvLine line] (by simp [resolveIdxs]) hOrd
          refine ⟨ho2, ?_,
            SAR0_append_quiet _ _ hS (by intro k cmd hm; simp at hm),
            ADJ_append_quiet _ _ hA (by intro k r2 hm; simp at hm)⟩
          simp only [IdxInv, hrc] at hIdx ⊢
          exact hIdx
        | true =>
          cases hc : st.current with
          | none =>
            have hstep : step st (Ev.recv line) =
                ({ st with ready := true },
                  [.recvLine line, .send none "isready"]) := by
              simp [step, stepRecv, heu, hrd, hct, hc]
            rw [hstep]
            obtain ⟨ho2, hrc⟩ :=
              OrdInv_append_quiet tr [.recvLine line, .send none "isready"] (by simp [resolveIdxs]) hOrd
            refine ⟨ho2, ?_,
              SAR0_append_quiet _ _ hS (by intro k cmd hm; simp at hm),
              ADJ_append_quiet _ _ hA (by intro k r2 hm; simp at hm)⟩
            simp only [IdxInv, hc] at hIdx
            simp only [IdxInv, hc, hrc]
            exact hIdx
          | some t =>
            obtain ⟨i, rq, stg⟩ := t
            simp only [IdxInv, hc] at hIdx
            obtain ⟨h1, h2, h3⟩ := hIdx
            cases stg with
            | awaitingReady =>
              have hstep : step st (Ev.recv line) =
                  ({ st with
                      ready := true,
                      current := some ⟨i, rq, .listening initAcc⟩ },
                    [.recvLine line, .send none "isready",
                     .send (some i) "ucinewgame",
                     .send (some i) ("position fen " ++ rq.fen),
                     .send (some i) ("go depth " ++ toString rq.depth)]) := by
                simp [step, stepRecv, heu, hrd, hct, hc, reqCmds]
              rw [hstep]
              obtain ⟨ho2, hrc⟩ :=
                OrdInv_append_quiet tr [.recvLine line, .send none "isready",
               .send (some i) "ucinewgame",
               .send (some i) ("position fen " ++ rq.fen),
               .send (some i) ("go depth " ++ toString rq.depth)] (by simp [resolveIdxs]) hOrd
              refine ⟨ho2, ?_, ?_,
                ADJ_append_quiet _ _ hA (by intro k r2 hm; simp at hm)⟩
              · simp only [IdxInv, hrc]
                exact ⟨h1, h2, h3⟩
              · apply SAR0_append_sends tr _ hS hOrd
                intro j k cmd hj
                have hm := mem_of_get? hj
                simp at hm
                rcases hm with ⟨hk, _⟩ | ⟨hk, _⟩ | ⟨hk, _⟩ <;>
                  rw [hk, ← h1]
            | awaitingSetup =>
              have hstep : step st (Ev.recv line) =
                  ({ st with ready := true },
                    [.recvLine line, .send none "isready"]) := by
                simp [step, stepRecv, heu, hrd, hct, hc]
              rw [hstep]
              obtain ⟨ho2, hrc⟩ :=
                OrdInv_append_quiet tr [.recvLine line, .send none "isready"] (by simp [resolveIdxs]) hOrd
              refine ⟨ho2, ?_,
                SAR0_append_quiet _ _ hS (by intro k cmd hm; simp at hm),
                ADJ_append_quiet _ _ hA (by intro k r2 hm; simp at hm)⟩
              simp only [IdxInv, hc, hrc]
              exact ⟨h1, h2, h3⟩
            | listening acc =>
              have hstep : step st (Ev.recv line) =
                  ({ st with ready := true },
                    [.recvLine line, .send none "isready"]) := by
                simp [step, stepRecv, heu, hrd, hct, hc]
              rw [hstep]
              obtain ⟨ho2, hrc⟩ :=
                OrdInv_append_quiet tr [.recvLine line, .send none "isready"] (by simp [resolveIdxs]) hOrd
              refine ⟨ho2, ?_,
                SAR0_append_quiet _ _ hS (by intro k cmd hm; simp at hm),
                ADJ_append_quiet _ _ hA (by intro k r2 hm; simp at hm)⟩
              simp only [IdxInv, hc, hrc]
              exact ⟨h1, h2, h3⟩
      | true =>
        cases hc : st.current with
        | none =>
          have hstep : step st (Ev.recv line) = (st, [.recvLine line]) := by
            simp [step, stepRecv, heu, hrd, hc]
          rw [hstep]
          obtain ⟨ho2, hrc⟩ :=
            OrdInv_append_quiet tr [.recvLine line] (by simp [resolveIdxs]) hOrd
          refine ⟨ho2, ?_,
            SAR0_append_quiet _ _ hS (by intro k cmd hm; simp at hm),
            ADJ_append_quiet _ _ hA (by intro k r2 hm; simp at hm)⟩
          simp only [IdxInv, hc] at hIdx
          simp only [IdxInv, hc, hrc]
          exact hIdx
        | some t =>
          obtain ⟨i, rq, stg⟩ := t
          simp only [IdxInv, hc] at hIdx
          obtain ⟨h1, h2, h3⟩ := hIdx
          cases stg with
          | awaitingSetup =>
            have hstep : step st (Ev.recv line) = (st, [.recvLine line]) := by
              simp [step, stepRecv, heu, hrd, hc]
            rw [hstep]
            obtain ⟨ho2, hrc⟩ :=
              OrdInv_append_quiet tr [.recvLine line] (by simp [resolveIdxs]) hOrd
            refine ⟨ho2, ?_,
              SAR0_append_quiet _ _ hS (by intro k cmd hm; simp at hm),
              ADJ_append_quiet _ _ hA (by intro k r2 hm; simp at hm)⟩
            simp only [IdxInv, hc, hrc]
            exact ⟨h1, h2, h3⟩
          | awaitingReady =>
            have hstep : step st (Ev.recv line) = (st, [.recvLine line]) := by
              simp [step, stepRecv, heu, hrd, hc]
            rw [hstep]
            obtain ⟨ho2, hrc⟩ :=
              OrdInv_append_quiet tr [.recvLine line] (by simp [resolveIdxs]) hOrd
            refine ⟨ho2, ?_,
              SAR0_append_quiet _ _ hS (by intro k cmd hm; simp at hm),
              ADJ_append_quiet _ _ hA (by intro k r2 hm; simp at hm)⟩
            simp only [IdxInv, hc, hrc]
            exact ⟨h1, h2, h3⟩
          | listening acc =>
            cases hbm : strStartsWith line "bestmove " with
            | false =>
              have hstep := stepRecv_listening st i rq acc line heu hrd hc hbm
              have hstep2 : step st (Ev.recv line) =
                  ({ st with current := some ⟨i, rq, .listening
                      (match (if strStartsWith line "info " = true then
                          parseInfoLine line else none) with
                       | some p => ⟨p.eval, p.pv⟩
                       | none => acc)⟩ }, [.recvLine line]) := by
                rw [step, hstep]
              rw [hstep2]
              obtain ⟨ho2, hrc⟩ :=
                OrdInv_append_quiet tr [.recvLine line] (by simp [resolveIdxs]) hOrd
              refine ⟨ho2, ?_,
                SAR0_append_quiet _ _ hS (by intro k cmd hm; simp at hm),
                ADJ_append_quiet _ _ hA (by intro k r2 hm; simp at hm)⟩
              simp only [IdxInv, hc, hrc]
              exact ⟨h1, h2, h3⟩
            | true =>
              have hbest := stepRecv_bestmove st i rq acc line heu hrd hc hbm
              have hi : i = rcOf tr := h1
              cases hpend : st.pending with
              | nil =>
                have hpop : popNext { st with current := none } =
                    ({ st with current := none }, []) := by
                  simp [popNext, hpend]
                have hs1 : (step st (Ev.recv line)).1 =
                    { st with current := none } := by
                  rw [step, hbest.2, hpop]
                have hs2 : (step st (Ev.recv line)).2 =
                    [.recvLine line,
                     .resolve (rcOf tr) ⟨acc.lastEval,
                       (splitOnSpace line).getD 1 "", acc.lastPv⟩] := by
                  rw [step, hbest.1, hpop, hi]
                  rfl
                rw [hs1, hs2]
                obtain ⟨ho2, hrc⟩ :=
                  OrdInv_append_res tr [.recvLine line,
                   .resolve (rcOf tr) ⟨acc.lastEval,
                     (splitOnSpace line).getD 1 "", acc.lastPv⟩] (by simp [resolveIdxs]) hOrd
                refine ⟨ho2, ?_,
                  SAR0_append_quiet _ _ hS
                    (by intro k cmd hm; simp at hm), ?_⟩
                · simp only [IdxInv, hrc]
                  rw [hpend] at h3
                  exact ⟨hpend, by rw [h3]; simp⟩
                · apply ADJ_append tr _ hA
                  intro j k r2 hj
                  rcases j with _ | _ | j
                  · simp at hj
                  · exact ⟨0, line, rfl, rfl, hbm⟩
                  · simp at hj
              | cons pr rest =>
                obtain ⟨j2, rq2⟩ := pr
                rw [hpend] at h2 h3
                have hj2 : j2 = rcOf tr + 1 := by
                  simp [List.range'_succ] at h2
                  exact h2.1
                have hrest : rest.map Prod.fst =
                    List.range' (rcOf tr + 2) rest.length := by
                  simp [List.range'_succ] at h2
                  have := h2.2
                  simpa [Nat.add_assoc] using this
                have hpop : popNext { st with current := none } =
                    ({ st with
                        current := some ⟨j2, rq2, .listening initAcc⟩,
                        pending := rest },
                      reqCmds j2 rq2) := by
                  simp [popNext, hpend, startTask, heu, hrd]
                have hs1 : (step st (Ev.recv line)).1 =
                    { st with
                        current := some ⟨j2, rq2, .listening initAcc⟩,
                        pending := rest } := by
                  rw [step, hbest.2, hpop]
                have hs2 : (step st (Ev.recv line)).2 =
                    [.recvLine line,
                     .resolve (rcOf tr) ⟨acc.lastEval,
                       (splitOnSpace line).getD 1 "", acc.lastPv⟩,
                     .send (some j2) "ucinewgame",
                     .send (some j2) ("position fen " ++ rq2.fen),
                     .send (some j2) ("go depth " ++ toString rq2.depth)] := by
                  rw [step, hbest.1, hpop, hi]
                  rfl
                rw [hs1, hs2]
                obtain ⟨ho2, hrc⟩ :=
                  OrdInv_append_res tr [.recvLine line,
                   .resolve (rcOf tr) ⟨acc.lastEval,
                     (splitOnSpace line).getD 1 "", acc.lastPv⟩,
                   .send (some j2) "ucinewgame",
                   .send (some j2) ("position fen " ++ rq2.fen),
                   .send (some j2) ("go depth " ++ toString rq2.depth)] (by simp [resolveIdxs]) hOrd
                refine ⟨ho2, ?_, ?_, ?_⟩
                · simp only [IdxInv, hrc]
                  refine ⟨hj2, ?_, ?_⟩
                  · rw [hrest]
                  · rw [h3]
                    simp
                    omega
                · apply SAR0_append tr _ hS
                  intro j k cmd hj
                  rcases j with _ | _ | _ | _ | _ | j
                  · simp at hj
                  · simp at hj
                  · simp at hj
                    right
                    have hk : k = rcOf tr := by omega
                    subst hk
                    exact ⟨1, by omega, _, rfl⟩
                  · simp at hj
                    right
                    have hk : k = rcOf tr := by omega
                    subst hk
                    exact ⟨1, by omega, _, rfl⟩
                  · simp at hj
                    right
                    have hk : k = rcOf tr := by omega
                    subst hk
                    exact ⟨1, by omega, _, rfl⟩
                  · simp at hj
                · apply ADJ_append tr _ hA
                  intro j k r2 hj
                  rcases j with _ | _ | _ | _ | _ | j
                  · simp at hj
                  · exact ⟨0, line, rfl, rfl, hbm⟩
                  all_goals simp at hj

theorem c1Inv_init : C1Inv initState [] := by
  refine ⟨rfl, ⟨rfl, rfl⟩, ?_, ?_⟩
  · intro i k cmd hp
    rw [List.get?_eq_none.mpr (by simp)] at hp
    cases hp
  · intro j k r hp
    rw [List.get?_eq_none.mpr (by simp)] at hp
    cases hp

/-- C1: as long as no setup attempt fails, the engine commands of the
`(k+1)`-st analyze request are never transmitted before the `k`-th
request's final-answer (`bestmove`) line has been received — the
resolution of request `k` sits right after that reception and strictly
before any transmission for request `k+1` — and the recorded resolutions
are exactly requests `0, 1, 2, …` in submission order (at most one
request is in flight at any time). -/
theorem analyze_requests_serialized (evs : List Ev)
    (hok : Ev.setupResult false ∉ evs) :
    (∀ i k cmd,
      (runTrace evs).get? i = some (.send (some (k + 1)) cmd) →
      ∃ j line r, j + 1 < i ∧
        (runTrace evs).get? j = some (.recvLine line) ∧
        strStartsWith line "bestmove " = true ∧
        (runTrace evs).get? (j + 1) = some (.resolve k r)) ∧
    resolveIdxs (runTrace evs) = List.range (rcOf (runTrace evs)) := by
  have hinv := runFrom_inv (fun e => e ≠ Ev.setupResult false) C1Inv
    (fun st tr e hp hP => c1Inv_step st tr e hp hP) evs
    (fun e he hee => hok (hee ▸ he)) initState [] c1Inv_init
  rw [List.nil_append] at hinv
  obtain ⟨hOrd, _, hS, hA⟩ := hinv
  constructor
  · intro i k cmd hi
    simp only [runTrace] at hi ⊢
    obtain ⟨m, hmi, r, hm⟩ := hS i k cmd hi
    obtain ⟨j0, line, hjm, h0, hl⟩ := hA m k r hm
    subst hjm
    exact ⟨j0, line, r, hmi, h0, hl, hm⟩
  · exact hOrd

/-- C1 witness: two back-to-back requests; request 1's first command sits
at transcript position 11, after the `bestmove` for request 0 (position 9)
and its resolution (position 10). -/
theorem analyze_requests_serialized_witness :
    ∃ j line r, j + 1 < 11 ∧
      (runTrace [.submit ⟨"f0", 14⟩, .submit ⟨"f1", 14⟩, .setupResult true,
        .recv "uciok", .recv "info depth 10 score cp 23 pv e2e4 e7e5",
        .recv "bestmove e2e4 ponder d7d5",
        .recv "bestmove d2d4"]).get? j = some (.recvLine line) ∧
      strStartsWith line "bestmove " = true ∧
      (runTrace [.submit ⟨"f0", 14⟩, .submit ⟨"f1", 14⟩, .setupResult true,
        .recv "uciok", .recv "info depth 10 score cp 23 pv e2e4 e7e5",
        .recv "bestmove e2e4 ponder d7d5",
        .recv "bestmove d2d4"]).get? (j + 1) = some (.resolve 0 r) :=
  (analyze_requests_serialized
    [.submit ⟨"f0", 14⟩, .submit ⟨"f1", 14⟩, .setupResult true,
      .recv "uciok", .recv "info depth 10 score cp 23 pv e2e4 e7e5",
      .recv "bestmove e2e4 ponder d7d5", .recv "bestmove d2d4"]
    (by decide)).1 11 0 "ucinewgame" (by decide)

end ChessInsightBar
